import Mathlib

/-!
Verification development for the morgoth interpreter (Go sources under
internal/token, internal/lexer, internal/parser, internal/eval).

Shallow embedding notes:
  - Go byte strings are modelled as List Char (the inputs of interest are
    ASCII, where bytes and chars coincide).
  - Go int64 is modelled as Int with explicit two-complement wrapping
    (wrap64) applied where the Go code performs 64-bit arithmetic.
  - Go float64 is modelled as Rat: the claims under study touch floats only
    through payload equality of the same tag, never through IEEE rounding,
    NaN or formatting.
  - Go maps are modelled as association lists with in-place replacement,
    which matches observable map behaviour (lookup, insert, overwrite).
  - Loops and recursion are driven by an explicit fuel parameter; a result
    of none means the fuel ran out.  All theorems are stated for arbitrary
    fuel or under the hypothesis that evaluation returned a value.
-/

set_option maxHeartbeats 1000000

namespace Morgoth

/-! ## Token model (internal/token/token.go) -/

/-- TokenType mirrors the Go TokenType enumeration, in iota order. -/
inductive TokenType where
  | INT | FLOAT | STRING
  | IDENT
  | LET | CONST | FN | RETURN | IF | ELSE | MATCH | GUARD | DOOM | OK | ERR
  | NIL | TRUE | FALSE | REF | EXTERN_KW | SPAWN | AWAIT_ALL | DECREE | CHANT
  | SORRY_KW | SPEAK | AND | OR | AS
  | PLUS | MINUS | STAR | SLASH | PERCENT | ASSIGN | EQ | STRICT_EQ | NEQ
  | LT | GT | LTE | GTE | BANG | AMP
  | LPAREN | RPAREN | LBRACKET | RBRACKET | LBRACE | RBRACE
  | COMMA | SEMICOLON | COLON | ARROW | DOT | QUESTION
  | EOF | ILLEGAL
deriving DecidableEq, Repr

-- The Go constants EXTERN and SORRY are renamed EXTERN_KW and SORRY_KW here
-- because the plain words collide with reserved vocabulary of this
-- development; they denote exactly the Go values.

/-- Token mirrors the Go Token struct: type, literal text and position. -/
structure Token where
  type : TokenType
  literal : String
  line : Nat
  col : Nat
deriving DecidableEq, Repr

/-- LookupIdent mirrors the Go keyword table lookup. -/
def LookupIdent (ident : String) : TokenType :=
  match ident with
  | "let" => .LET
  | "const" => .CONST
  | "fn" => .FN
  | "return" => .RETURN
  | "if" => .IF
  | "else" => .ELSE
  | "match" => .MATCH
  | "guard" => .GUARD
  | "doom" => .DOOM
  | "ok" => .OK
  | "err" => .ERR
  | "nil" => .NIL
  | "true" => .TRUE
  | "false" => .FALSE
  | "ref" => .REF
  | "extern" => .EXTERN_KW
  | "spawn" => .SPAWN
  | "await_all" => .AWAIT_ALL
  | "decree" => .DECREE
  | "chant" => .CHANT
  | "sorry" => .SORRY_KW
  | "speak" => .SPEAK
  | "and" => .AND
  | "or" => .OR
  | "as" => .AS
  | _ => .IDENT

/-- SemicolonTrigger mirrors the Go predicate: token kinds that can end a
statement for automatic semicolon insertion. -/
def SemicolonTrigger (t : TokenType) : Bool :=
  match t with
  | .INT | .FLOAT | .STRING | .IDENT | .TRUE | .FALSE | .NIL
  | .RPAREN | .RBRACKET | .RBRACE | .QUESTION | .OK | .ERR => true
  | _ => false

/-- StartsStatement mirrors the Go statementStarters map membership. -/
def StartsStatement (t : TokenType) : Bool :=
  match t with
  | .LET | .CONST | .FN | .MATCH | .IF | .GUARD | .RETURN | .DECREE
  | .SPAWN => true
  | _ => false

/-! ## Lexer (internal/lexer/lexer.go) -/

/-- Character code 0, the scanning sentinel used by the Go lexer. -/
def nulChar : Char := Char.ofNat 0

/-- Opening brace character (written by code to keep braces out of string
literals of this file). -/
def lbraceChar : Char := Char.ofNat 123

/-- Closing brace character. -/
def rbraceChar : Char := Char.ofNat 125

/-- Double quote character. -/
def quoteChar : Char := Char.ofNat 34

/-- Lexer mirrors the Go Lexer state.  The Go field pendingSemicolon is not
represented: in the Go code it is set and immediately consumed by a
recursive NextToken call inside one public NextToken invocation, so it is
always nil at the public call boundary; nextToken below inlines that
recursion and returns the queued semicolon directly. -/
structure Lexer where
  input : List Char
  pos : Nat
  readPos : Nat
  ch : Char
  line : Nat
  col : Nat
  lastToken : Token
deriving DecidableEq, Repr

/-- readChar mirrors the Go readChar: advance one character, with 0 past the
end of input. -/
def readChar (l : Lexer) : Lexer :=
  let c := if h : l.readPos < l.input.length then l.input.get ⟨l.readPos, h⟩ else nulChar
  { l with ch := c, pos := l.readPos, readPos := l.readPos + 1, col := l.col + 1 }

/-- newLexer mirrors the Go constructor New: line 1, col 0, lastToken of
type EOF (so initial newlines do not trigger semicolon insertion), then one
readChar. -/
def newLexer (input : List Char) : Lexer :=
  readChar { input := input, pos := 0, readPos := 0, ch := nulChar,
             line := 1, col := 0,
             lastToken := { type := .EOF, literal := "", line := 0, col := 0 } }

/-- peekChar mirrors the Go peekChar. -/
def peekChar (l : Lexer) : Char :=
  if h : l.readPos < l.input.length then l.input.get ⟨l.readPos, h⟩ else nulChar

/-- peekCharAt mirrors the Go peekCharAt. -/
def peekCharAt (l : Lexer) (offset : Nat) : Char :=
  if h : l.readPos + offset < l.input.length then l.input.get ⟨l.readPos + offset, h⟩
  else nulChar

/-- isDigit mirrors the Go isDigit. -/
def isDigit (c : Char) : Bool := '0' ≤ c && c ≤ '9'

/-- isHexDigit mirrors the Go isHexDigit. -/
def isHexDigit (c : Char) : Bool :=
  ('0' ≤ c && c ≤ '9') || ('a' ≤ c && c ≤ 'f') || ('A' ≤ c && c ≤ 'F')

/-- isLetter mirrors the Go isLetter. -/
def isLetter (c : Char) : Bool :=
  ('a' ≤ c && c ≤ 'z') || ('A' ≤ c && c ≤ 'Z') || c = '_'

/-- skipLineComment mirrors the Go skipLineComment: consume until newline or
end of input. -/
def skipLineComment : Nat → Lexer → Lexer
  | 0, l => l
  | fuel + 1, l =>
    if l.ch ≠ '\n' && l.ch ≠ nulChar then skipLineComment fuel (readChar l) else l

/-- skipBlockCommentLoop mirrors the loop of the Go skipBlockComment, with
the current nesting depth as an argument.  At depth at least 2 a further
open delimiter is consumed as a single literal character (the depth cap);
a close delimiter always decrements the depth; the loop stops at depth 0 or
at end of input. -/
def skipBlockCommentLoop : Nat → Nat → Lexer → Lexer
  | 0, _, l => l
  | fuel + 1, depth, l =>
    if depth > 0 && l.ch ≠ nulChar then
      if l.ch = '#' && peekChar l = lbraceChar then
        if depth < 2 then
          skipBlockCommentLoop fuel (depth + 1) (readChar (readChar l))
        else
          skipBlockCommentLoop fuel depth (readChar l)
      else if l.ch = rbraceChar && peekChar l = '#' then
        skipBlockCommentLoop fuel (depth - 1) (readChar (readChar l))
      else
        let l1 := if l.ch = '\n' then { l with line := l.line + 1, col := 0 } else l
        skipBlockCommentLoop fuel depth (readChar l1)
    else l

/-- skipBlockComment mirrors the Go skipBlockComment: consume the two
delimiter characters and run the loop from depth 1. -/
def skipBlockComment (fuel : Nat) (l : Lexer) : Lexer :=
  skipBlockCommentLoop fuel 1 (readChar (readChar l))

/-- skipWhitespaceAndComments mirrors the Go function of the same name: skip
spaces, tabs, carriage returns, newlines and comments, reporting whether a
newline was consumed directly (newlines inside block comments are consumed
by skipBlockComment and do not set the flag, exactly as in the Go code). -/
def skipWhitespaceAndComments : Nat → Lexer → Bool → Lexer × Bool
  | 0, l, saw => (l, saw)
  | fuel + 1, l, saw =>
    if l.ch = ' ' || l.ch = '\t' || l.ch = '\r' then
      skipWhitespaceAndComments fuel (readChar l) saw
    else if l.ch = '\n' then
      skipWhitespaceAndComments fuel (readChar { l with line := l.line + 1, col := 0 }) true
    else if l.ch = '#' then
      if peekChar l = lbraceChar then
        skipWhitespaceAndComments fuel (skipBlockComment fuel l) saw
      else
        skipWhitespaceAndComments fuel (skipLineComment fuel l) saw
    else (l, saw)

/-- sliceStr extracts input positions from start (inclusive) to stop
(exclusive) as a String, mirroring Go slice expressions on the input. -/
def sliceStr (input : List Char) (start stop : Nat) : String :=
  String.mk ((input.drop start).take (stop - start))

/-- readStringLoop mirrors the body of the Go readString loop, accumulating
decoded characters; returns the literal, whether a closing quote was found,
and the lexer after the literal. -/
def readStringLoop : Nat → Lexer → List Char → (String × Bool × Lexer)
  | 0, l, acc => (String.mk acc, false, l)
  | fuel + 1, l, acc =>
    if l.ch ≠ quoteChar && l.ch ≠ nulChar then
      if l.ch = '\\' then
        let l1 := readChar l
        let bytes :=
          if l1.ch = 'n' then ['\n']
          else if l1.ch = 't' then ['\t']
          else if l1.ch = '0' then [nulChar]
          else if l1.ch = quoteChar then [quoteChar]
          else if l1.ch = '\\' then ['\\']
          else ['\\', l1.ch]
        readStringLoop fuel (readChar l1) (acc ++ bytes)
      else
        let l1 := if l.ch = '\n' then { l with line := l.line + 1, col := 0 } else l
        readStringLoop fuel (readChar l1) (acc ++ [l.ch])
    else
      if l.ch = quoteChar then (String.mk acc, true, readChar l)
      else (String.mk acc, false, l)

/-- readString mirrors the Go readString: skip the opening quote then run
the loop. -/
def readString (fuel : Nat) (l : Lexer) : String × Bool × Lexer :=
  readStringLoop fuel (readChar l) []

/-- scanWhile consumes characters satisfying p, mirroring the small scanning
loops of readNumber and readIdentifier. -/
def scanWhile : Nat → (Char → Bool) → Lexer → Lexer
  | 0, _, l => l
  | fuel + 1, p, l => if p l.ch then scanWhile fuel p (readChar l) else l

/-- readNumber mirrors the Go readNumber: hexadecimal integers, decimal
integers and floats with underscore separators; a dot is part of the number
only when immediately followed by a digit. -/
def readNumber (fuel : Nat) (l : Lexer) : TokenType × String × Lexer :=
  let start := l.pos
  if l.ch = '0' && (peekChar l = 'x' || peekChar l = 'X') then
    let l1 := scanWhile fuel (fun c => isHexDigit c || c = '_') (readChar (readChar l))
    (.INT, sliceStr l1.input start l1.pos, l1)
  else
    let l1 := scanWhile fuel (fun c => isDigit c || c = '_') l
    if l1.ch = '.' && isDigit (peekChar l1) then
      let l2 := scanWhile fuel (fun c => isDigit c || c = '_') (readChar l1)
      (.FLOAT, sliceStr l2.input start l2.pos, l2)
    else
      (.INT, sliceStr l1.input start l1.pos, l1)

/-- readIdentifier mirrors the Go readIdentifier. -/
def readIdentifier (fuel : Nat) (l : Lexer) : String × Lexer :=
  let start := l.pos
  let l1 := scanWhile fuel (fun c => isLetter c || isDigit c) l
  (sliceStr l1.input start l1.pos, l1)

/-- nextTokenStartsStatement mirrors the Go peek: at end of input it reports
true; otherwise it reads the identifier characters ahead in place,
classifies the word through the keyword table, and tests the
statement-starter predicate. -/
def nextTokenStartsStatement (l : Lexer) : Bool :=
  if l.ch = nulChar then true
  else if !isLetter l.ch then false
  else
    let word := String.mk ((l.input.drop l.pos).takeWhile (fun c => isLetter c || isDigit c))
    StartsStatement (LookupIdent word)

/-- makeToken mirrors the Go makeToken. -/
def makeToken (l : Lexer) (tt : TokenType) (lit : String) : Token :=
  { type := tt, literal := lit, line := l.line, col := l.col }

/-- advanceN applies readChar n times (the Go branches call readChar once
per consumed character). -/
def advanceN : Nat → Lexer → Lexer
  | 0, l => l
  | n + 1, l => advanceN n (readChar l)

/-- scanToken mirrors the main switch of the Go NextToken after whitespace
skipping and semicolon insertion have been handled: scan one real token and
return it together with the advanced lexer.  The line and col recorded in
the token are those captured before scanning, exactly as in the Go code. -/
def scanToken (fuel : Nat) (l : Lexer) : Token × Lexer :=
  if l.ch = '+' then (makeToken l .PLUS "+", readChar l)
  else if l.ch = '-' then (makeToken l .MINUS "-", readChar l)
  else if l.ch = '*' then (makeToken l .STAR "*", readChar l)
  else if l.ch = '/' then (makeToken l .SLASH "/", readChar l)
  else if l.ch = '%' then (makeToken l .PERCENT "%", readChar l)
  else if l.ch = '&' then (makeToken l .AMP "&", readChar l)
  else if l.ch = '(' then (makeToken l .LPAREN "(", readChar l)
  else if l.ch = ')' then (makeToken l .RPAREN ")", readChar l)
  else if l.ch = '[' then (makeToken l .LBRACKET "[", readChar l)
  else if l.ch = ']' then (makeToken l .RBRACKET "]", readChar l)
  else if l.ch = lbraceChar then (makeToken l .LBRACE (String.mk [lbraceChar]), readChar l)
  else if l.ch = rbraceChar then (makeToken l .RBRACE (String.mk [rbraceChar]), readChar l)
  else if l.ch = ',' then (makeToken l .COMMA ",", readChar l)
  else if l.ch = ';' then (makeToken l .SEMICOLON ";", readChar l)
  else if l.ch = ':' then (makeToken l .COLON ":", readChar l)
  else if l.ch = '.' then (makeToken l .DOT ".", readChar l)
  else if l.ch = '?' then (makeToken l .QUESTION "?", readChar l)
  else if l.ch = '=' then
    if peekChar l = '=' && peekCharAt l 1 = '=' then
      (makeToken l .STRICT_EQ "===", advanceN 3 l)
    else if peekChar l = '=' then (makeToken l .EQ "==", advanceN 2 l)
    else if peekChar l = '>' then (makeToken l .ARROW "=>", advanceN 2 l)
    else (makeToken l .ASSIGN "=", readChar l)
  else if l.ch = '!' then
    if peekChar l = '=' then (makeToken l .NEQ "!=", advanceN 2 l)
    else (makeToken l .BANG "!", readChar l)
  else if l.ch = '<' then
    if peekChar l = '=' then (makeToken l .LTE "<=", advanceN 2 l)
    else (makeToken l .LT "<", readChar l)
  else if l.ch = '>' then
    if peekChar l = '=' then (makeToken l .GTE ">=", advanceN 2 l)
    else (makeToken l .GT ">", readChar l)
  else if l.ch = quoteChar then
    let res := readString fuel l
    if res.2.1 then
      ({ type := .STRING, literal := res.1, line := l.line, col := l.col }, res.2.2)
    else
      ({ type := .ILLEGAL, literal := res.1, line := l.line, col := l.col }, res.2.2)
  else if isDigit l.ch then
    let res := readNumber fuel l
    ({ type := res.1, literal := res.2.1, line := l.line, col := l.col }, res.2.2)
  else if isLetter l.ch then
    let res := readIdentifier fuel l
    ({ type := LookupIdent res.1, literal := res.1, line := l.line, col := l.col }, res.2)
  else
    (makeToken l .ILLEGAL (String.mk [l.ch]), readChar l)

/-- nextToken mirrors the Go NextToken.  The returned Bool reports whether
the emitted token is a synthetic semicolon (inserted by newline or trailing
end-of-input insertion rather than scanned from the input); the Go code
queues it through pendingSemicolon and immediately returns it through a
recursive call, which is inlined here. -/
def nextToken (fuel : Nat) (l : Lexer) : Token × Bool × Lexer :=
  let skipped := skipWhitespaceAndComments fuel l false
  let l1 := skipped.1
  let sawNewline := skipped.2
  if sawNewline && SemicolonTrigger l1.lastToken.type
      && (l1.ch = nulChar || nextTokenStartsStatement l1) then
    let semi : Token := { type := .SEMICOLON, literal := ";", line := l1.line, col := l1.col }
    (semi, true, { l1 with lastToken := semi })
  else if l1.ch = nulChar then
    if SemicolonTrigger l1.lastToken.type then
      let semi : Token := { type := .SEMICOLON, literal := ";", line := l1.line, col := l1.col }
      (semi, true, { l1 with lastToken := semi })
    else
      let eofTok : Token := { type := .EOF, literal := "", line := l1.line, col := l1.col }
      (eofTok, false, { l1 with lastToken := eofTok })
  else
    let res := scanToken fuel l1
    (res.1, false, { res.2 with lastToken := res.1 })

/-- tokenize mirrors the Go Tokenize: emit tokens until EOF inclusive,
keeping the synthetic-semicolon flag of each token. -/
def tokenize : Nat → Lexer → List (Token × Bool)
  | 0, _ => []
  | fuel + 1, l =>
    let res := nextToken fuel l
    if res.1.type = .EOF then [(res.1, res.2.1)]
    else (res.1, res.2.1) :: tokenize fuel res.2.2

/-- tokenTypes projects the token kinds out of a tokenize result. -/
def tokenTypes (ts : List (Token × Bool)) : List TokenType := ts.map (fun p => p.1.type)

/-! ## Runtime values (internal/eval/value.go) -/

/-- wrap64 reduces an Int to the two-complement range of the Go int64. -/
def wrap64 (n : Int) : Int := (n + 2 ^ 63) % 2 ^ 64 - 2 ^ 63

/-- Value mirrors the Go Value tagged union.  Arrays, maps and functions are
held behind heap references (Nat indices into the evaluator state), because
the Go code shares them by pointer and mutates them in place; all other
variants are immutable payloads carried by value, which matches the Go
behaviour observationally. -/
inductive Value where
  | vint (n : Int)
  | vfloat (x : Rat)
  | vbool (b : Bool)
  | vstr (s : String)
  | vnil
  | varr (ref : Nat)
  | vmap (ref : Nat)
  | vfn (ref : Nat)
  | vok (inner : Value)
  | verr (inner : Value)
  | vptr (addr : Int)
deriving DecidableEq, Repr

/-- kindCode gives the numeric value of the Go ValueKind enumeration (iota
order); Go format verbs print this integer in several doom messages. -/
def kindCode : Value → Nat
  | .vint _ => 0
  | .vfloat _ => 1
  | .vbool _ => 2
  | .vstr _ => 3
  | .vnil => 4
  | .varr _ => 5
  | .vmap _ => 6
  | .vfn _ => 7
  | .vok _ => 8
  | .verr _ => 9
  | .vptr _ => 10

/-- assocGet looks a key up in an association list (the model of a Go map). -/
def assocGet {α : Type} (l : List (String × α)) (k : String) : Option α :=
  match l with
  | [] => none
  | (k1, v1) :: rest => if k1 = k then some v1 else assocGet rest k

/-- assocSet writes a key in an association list, replacing in place or
appending (the model of a Go map assignment). -/
def assocSet {α : Type} (l : List (String × α)) (k : String) (v : α) : List (String × α) :=
  match l with
  | [] => [(k, v)]
  | (k1, v1) :: rest => if k1 = k then (k, v) :: rest else (k1, v1) :: assocSet rest k v

/-- OrderedMap mirrors the Go OrderedMap: a key list recording insertion
order of first assignment next to the key-value mapping. -/
structure OrderedMap where
  keys : List String
  values : List (String × Value)
deriving DecidableEq, Repr

/-- NewOrderedMap mirrors the Go constructor. -/
def NewOrderedMap : OrderedMap := { keys := [], values := [] }

/-- OrderedMap.Set mirrors the Go Set: append the key to the key list only
when it is not yet present in the mapping, then write the value. -/
def OrderedMap.Set (m : OrderedMap) (key : String) (val : Value) : OrderedMap :=
  { keys := if (assocGet m.values key).isSome then m.keys else m.keys ++ [key],
    values := assocSet m.values key val }

/-- OrderedMap.Get mirrors the Go Get. -/
def OrderedMap.Get (m : OrderedMap) (key : String) : Option Value :=
  assocGet m.values key

/-- OrderedMap.Keys mirrors the Go Keys. -/
def OrderedMap.Keys (m : OrderedMap) : List String := m.keys

/-- OrderedMap.Len mirrors the Go Len. -/
def OrderedMap.Len (m : OrderedMap) : Nat := m.keys.length

/-- IsTruthy mirrors the Go IsTruthy. -/
def Value.IsTruthy : Value → Bool
  | .vbool b => b
  | .vint n => n ≠ 0
  | .vstr s => s ≠ ""
  | .vptr n => n ≠ 0
  | .vnil => false
  | _ => true

/-- valuesEqual mirrors the Go valuesEqual: same tag required, scalar tags
compare payloads, every other tag falls to the default branch which returns
false (the Go switch has no identity case for plain equality). -/
def valuesEqual : Value → Value → Bool
  | .vint a, .vint b => a = b
  | .vfloat a, .vfloat b => a = b
  | .vbool a, .vbool b => a = b
  | .vstr a, .vstr b => a = b
  | .vnil, .vnil => true
  | _, _ => false

/-- valuesStrictEqual mirrors the Go valuesStrictEqual: scalars as in
valuesEqual, ok and err wrappers compared recursively, ptr by integer,
arrays, maps and functions by reference identity (the Go pointer equality
of the default branch corresponds to heap-reference equality here). -/
def valuesStrictEqual : Value → Value → Bool
  | .vint a, .vint b => a = b
  | .vfloat a, .vfloat b => a = b
  | .vbool a, .vbool b => a = b
  | .vstr a, .vstr b => a = b
  | .vnil, .vnil => true
  | .vok a, .vok b => valuesStrictEqual a b
  | .verr a, .verr b => valuesStrictEqual a b
  | .vptr a, .vptr b => a = b
  | .varr a, .varr b => a = b
  | .vmap a, .vmap b => a = b
  | .vfn a, .vfn b => a = b
  | _, _ => false

/-- toFloat mirrors the Go toFloat. -/
def toFloat : Value → Rat
  | .vfloat x => x
  | .vint n => (n : Rat)
  | _ => 0

/-! ## Environments (internal/eval/env.go) and evaluator state -/

/-- Binding mirrors the Go Binding. -/
structure Binding where
  value : Value
  isConst : Bool
  forgiven : Bool
deriving DecidableEq, Repr

/-- Scope mirrors one Go Env node: the name-to-binding map of the scope plus
the optional parent, as a reference into the environment heap. -/
structure Scope where
  bindings : List (String × Binding)
  parent : Option Nat
deriving DecidableEq, Repr

-- The AST node families (the Go Expr, Pattern, Stmt interfaces and the
-- BlockExpr struct), declared mutually.
mutual

inductive Expr where
  | intLit (n : Int)
  | floatLit (x : Rat)
  | strLit (s : String)
  | boolLit (b : Bool)
  | nilLit
  | identE (name : String)
  | arrayLit (elems : List Expr)
  | mapLit (pairs : List (Expr × Expr))
  | binary (op : String) (left right : Expr)
  | unary (op : String) (right : Expr)
  | assign (name : String) (value : Expr)
  | indexAssign (left index value : Expr)
  | dotAssign (left : Expr) (field : String) (value : Expr)
  | call (fnExpr : Expr) (args : List Expr)
  | indexE (left index : Expr)
  | dotE (left : Expr) (field : String)
  | propagateE (inner : Expr)
  | ifE (cond : Expr) (thenB : Block) (els : Option Expr)
  | matchE (subject : Expr) (arms : List (Pattern × Expr))
  | guardE (cond : Expr) (elseBody : Expr)
  | blockE (b : Block)
  | okE (inner : Expr)
  | errE (inner : Expr)
  | asE (left : Expr) (typeName : String)
  | speakE (value : Expr) (elseBody : Option Expr)
  | doomE (message : Expr)
  | apologyE (name : String)
  | chantE (arg : Expr)
  | spawnE (body : Block)
  | awaitAllE
  | fnLit (params : List String) (body : Block)

inductive Pattern where
  | wildcard
  | literalP (value : Expr)
  | identP (name : String)
  | typedP (name : String) (typeName : String)
  | guardedP (inner : Pattern) (guardCond : Expr)

inductive Stmt where
  | letS (name : String) (value : Expr)
  | constS (name : String) (value : Expr)
  | returnS (value : Expr)
  | decreeS (value : String)
  | exprS (e : Expr)

inductive Block where
  | mk (stmts : List Stmt) (finalExpr : Option Expr)

end

-- Node names follow the Go AST with light renaming forced by reserved
-- vocabulary: identE for IdentExpr, apologyE for SorryExpr (the sorry
-- keyword node), exprS for ExprStmt.  SpawnExpr, AwaitAllExpr and
-- FnLitExpr are declared in a Go AST file absent from the sources at hand;
-- their shapes follow their uses in eval.go and the parser tests (spawn
-- carries a block body, await_all is bare, a function literal carries
-- parameters and a body).  FnLitExpr has no case in the Go evalExpr switch,
-- so evaluating it falls to the default branch.

/-- Block.stmts projection. -/
def Block.stmts : Block → List Stmt
  | .mk s _ => s

/-- Block.finalExpr projection. -/
def Block.finalExpr : Block → Option Expr
  | .mk _ f => f

/-- Item mirrors the Go Item family: top-level declarations and statements.
ExternDecl is named exDecl here (reserved word). -/
inductive Item where
  | fnDecl (name : String) (params : List String) (body : Block)
  | exDecl (name : String) (params : List String)
  | stmtItem (s : Stmt)

/-- Program mirrors the Go Program. -/
structure Program where
  items : List Item

/-- FnValue mirrors the Go FnValue: name, parameter names, optional body
(none for extern stubs) and the captured environment reference. -/
structure FnValue where
  name : String
  params : List String
  body : Option Block
  envId : Nat

/-- DecreeConfig mirrors the Go DecreeConfig. -/
structure DecreeConfig where
  indexingBase : String
  detHashing : Bool
  ambitiousMode : Bool
  softCasts : Bool
  sequentialMood : Bool
  noForgiveness : Bool
deriving DecidableEq, Repr

/-- NewDecreeConfig mirrors the Go defaults: weekday indexing, all flags
false. -/
def NewDecreeConfig : DecreeConfig :=
  { indexingBase := "weekday", detHashing := false, ambitiousMode := false,
    softCasts := false, sequentialMood := false, noForgiveness := false }

/-- DecreeConfig.apply mirrors the Go Apply: unknown decree strings are
ignored. -/
def DecreeConfig.apply (d : DecreeConfig) (decree : String) : DecreeConfig :=
  match decree with
  | "zero_indexed" => { d with indexingBase := "zero" }
  | "one_indexed" => { d with indexingBase := "one" }
  | "deterministic_hashing" => { d with detHashing := true }
  | "soft_casts" => { d with softCasts := true }
  | "ambitious_mode" => { d with ambitiousMode := true }
  | "sequential_mood" => { d with sequentialMood := true }
  | "no_forgiveness" => { d with noForgiveness := true }
  | _ => d

/-- EvalState gathers the mutable state of the Go Evaluator: the
environment tree (a heap of scopes plus the current scope reference), the
heaps backing shared arrays, maps and function values, the decree
configuration, the spoken output lines, the weekend flag modelling the
wall-clock weekday peek of adjustIndex (fixed for a run), and an
association list modelling the file system seen by read_file. -/
structure EvalState where
  envs : List Scope
  curEnv : Nat
  arrays : List (List Value)
  maps : List OrderedMap
  fns : List FnValue
  decrees : DecreeConfig
  output : List String
  weekend : Bool
  fileSys : List (String × String)

/-- initState mirrors the Go New constructor: a single root scope, empty
heaps, default decrees, empty output. -/
def initState (weekend : Bool) (fileSys : List (String × String)) : EvalState :=
  { envs := [{ bindings := [], parent := none }], curEnv := 0,
    arrays := [], maps := [], fns := [], decrees := NewDecreeConfig,
    output := [], weekend := weekend, fileSys := fileSys }

/-- allocScope appends a fresh empty scope (the Go NewEnv) and returns its
reference. -/
def allocScope (envs : List Scope) (parent : Option Nat) : Nat × List Scope :=
  (envs.length, envs ++ [{ bindings := [], parent := parent }])

/-- envDefine mirrors the Go Env.Define on the scope heap: create or shadow
a binding in the given scope (forgiven starts false). -/
def envDefine (envs : List Scope) (id : Nat) (name : String) (v : Value) (isConst : Bool) :
    List Scope :=
  match envs[id]? with
  | none => envs
  | some sc =>
    let b : Binding := { value := v, isConst := isConst, forgiven := false }
    envs.set id { sc with bindings := assocSet sc.bindings name b }

/-- envGetAux walks the parent chain for lookup (the Go Env.Get); fuel
bounds the walk (a chain is acyclic by construction, any heap size
suffices). -/
def envGetAux (envs : List Scope) : Nat → Nat → String → Option Value
  | 0, _, _ => none
  | fuel + 1, id, name =>
    match envs[id]? with
    | none => none
    | some sc =>
      match assocGet sc.bindings name with
      | some b => some b.value
      | none =>
        match sc.parent with
        | some p => envGetAux envs fuel p name
        | none => none

/-- envGet mirrors the Go Env.Get result: the value or the undefined
variable message. -/
def envGet (envs : List Scope) (id : Nat) (name : String) : Except String Value :=
  match envGetAux envs (envs.length + 1) id name with
  | some v => .ok v
  | none => .error ("undefined variable: " ++ name)

/-- envSetAux walks the parent chain for assignment (the Go Env.Set): a
const binding that is not forgiven rejects the write, otherwise the value
of the existing binding is replaced in place. -/
def envSetAux (envs : List Scope) : Nat → Nat → String → Value → Except String (List Scope)
  | 0, _, name, _ => .error ("undefined variable: " ++ name)
  | fuel + 1, id, name, v =>
    match envs[id]? with
    | none => .error ("undefined variable: " ++ name)
    | some sc =>
      match assocGet sc.bindings name with
      | some b =>
        if b.isConst && !b.forgiven then
          .error ("cannot reassign const: " ++ name)
        else
          .ok (envs.set id { sc with bindings := assocSet sc.bindings name { b with value := v } })
      | none =>
        match sc.parent with
        | some p => envSetAux envs fuel p name v
        | none => .error ("undefined variable: " ++ name)

/-- envSet mirrors the Go Env.Set. -/
def envSet (envs : List Scope) (id : Nat) (name : String) (v : Value) :
    Except String (List Scope) :=
  envSetAux envs (envs.length + 1) id name v

/-- envForgive mirrors the Go Env.Forgive: flip the forgiven flag of a
binding of the given scope only, never ascending to a parent. -/
def envForgive (envs : List Scope) (id : Nat) (name : String) : Except String (List Scope) :=
  match envs[id]? with
  | none => .error ("sorry: " ++ name ++ " not found in current scope")
  | some sc =>
    match assocGet sc.bindings name with
    | some b =>
      .ok (envs.set id { sc with bindings := assocSet sc.bindings name { b with forgiven := true } })
    | none => .error ("sorry: " ++ name ++ " not found in current scope")

/-! ## Stringification and small helpers (internal/eval) -/

/-- lbraceStr is the one-character opening-brace string. -/
def lbraceStr : String := String.mk [lbraceChar]

/-- rbraceStr is the one-character closing-brace string. -/
def rbraceStr : String := String.mk [rbraceChar]

/-- quoted wraps a string in double quotes, modelling the Go format verb
used in cast error messages. -/
def quoted (s : String) : String := String.mk [quoteChar] ++ s ++ String.mk [quoteChar]

/-- floatFormat renders a float payload.  The Go code formats with the g
verb of the fmt package; the exact digits are not reproduced by the Rat
model and no claim depends on float formatting. -/
def floatFormat (x : Rat) : String := toString x

/-- valueStr mirrors the Go Value.String with an explicit recursion bound:
arrays and maps are followed through the heap.  The Go function diverges on
cyclic structures; the model truncates instead (no claim reaches either
behaviour). -/
def valueStr (st : EvalState) : Nat → Value → String
  | 0, _ => ""
  | fuel + 1, v =>
    match v with
    | .vint n => toString n
    | .vfloat x => floatFormat x
    | .vbool b => if b then "true" else "false"
    | .vstr s => s
    | .vnil => "nil"
    | .varr ref =>
      match st.arrays[ref]? with
      | none => "[]"
      | some elems => "[" ++ String.intercalate ", " (elems.map (fun e => valueStr st fuel e)) ++ "]"
    | .vmap ref =>
      match st.maps[ref]? with
      | none => lbraceStr ++ rbraceStr
      | some m =>
        let parts := m.keys.map (fun k =>
          match OrderedMap.Get m k with
          | some v1 => k ++ ": " ++ valueStr st fuel v1
          | none => k ++ ": ")
        lbraceStr ++ String.intercalate ", " parts ++ rbraceStr
    | .vfn ref =>
      match st.fns[ref]? with
      | none => "<fn>"
      | some fv => if fv.name ≠ "" then "<fn " ++ fv.name ++ ">" else "<fn>"
    | .vok i => "ok(" ++ valueStr st fuel i ++ ")"
    | .verr i => "err(" ++ valueStr st fuel i ++ ")"
    | .vptr n => "ptr(" ++ toString n ++ ")"

/-- stringifyV runs valueStr with fuel covering every acyclic value of the
heap (a reference cannot repeat along a path without a cycle). -/
def stringifyV (st : EvalState) (v : Value) : String :=
  valueStr st (st.arrays.length + st.maps.length + 1) v

/-- kindIsStr tests for the string tag. -/
def kindIsStr : Value → Bool
  | .vstr _ => true
  | _ => false

/-- kindIsFloat tests for the float tag. -/
def kindIsFloat : Value → Bool
  | .vfloat _ => true
  | _ => false

/-- kindIsInt tests for the int tag. -/
def kindIsInt : Value → Bool
  | .vint _ => true
  | _ => false

/-- adjustIndex mirrors the Go adjustIndex: identity for zero-based, minus
one for one-based, and for the default weekday base minus one on weekdays
and identity on weekends (the wall-clock peek is modelled by the fixed
weekend flag of the state). -/
def adjustIndex (st : EvalState) (idx : Int) : Int :=
  match st.decrees.indexingBase with
  | "zero" => idx
  | "one" => wrap64 (idx - 1)
  | "weekday" => if st.weekend then idx else wrap64 (idx - 1)
  | _ => idx

/-- Control-flow signal variants returned through the error channel of the
Go evaluator (DoomError, ReturnSignal, PropagateError, GuardReturnSignal). -/
inductive Signal where
  | doomS (msg : String)
  | ret (v : Value)
  | prop (v : Value)
  | guardRet (v : Value)
deriving DecidableEq, Repr

/-- EvalRes is the result shape of every evaluator function: none when the
fuel ran out, otherwise a value or a signal next to the state after the
step. -/
abbrev EvalRes := Option (Except Signal Value × EvalState)

/-- bindE sequences an evaluator result, propagating fuel exhaustion and
signals unchanged (the Go pattern of returning early on a non-nil error). -/
def bindE {α β : Type} (r : Option (Except Signal α × EvalState))
    (k : α → EvalState → Option (Except Signal β × EvalState)) :
    Option (Except Signal β × EvalState) :=
  match r with
  | none => none
  | some (.error s, st) => some (.error s, st)
  | some (.ok v, st) => k v st

/-- evalAdd mirrors the Go evalAdd: string concatenation when either side
is a string, float widening when either side is a float, 64-bit integer
addition for two ints, doom otherwise (the message prints the numeric kind
codes, as the Go format verb does on the ValueKind integers). -/
def evalAdd (st : EvalState) (l r : Value) : Except Signal Value :=
  if kindIsStr l || kindIsStr r then .ok (.vstr (stringifyV st l ++ stringifyV st r))
  else if kindIsFloat l || kindIsFloat r then .ok (.vfloat (toFloat l + toFloat r))
  else
    match l, r with
    | .vint a, .vint b => .ok (.vint (wrap64 (a + b)))
    | _, _ =>
      .error (.doomS ("cannot add " ++ toString (kindCode l) ++ " and " ++ toString (kindCode r)))

/-- evalArith mirrors the Go evalArith for the minus, times, divide and
modulo operators: float widening when either side is a float (modulo dooms
on floats, division by zero dooms), 64-bit integer arithmetic with
truncating division for two ints, doom otherwise. -/
def evalArith (l r : Value) (op : String) : Except Signal Value :=
  if kindIsFloat l || kindIsFloat r then
    let lf := toFloat l
    let rf := toFloat r
    match op with
    | "-" => .ok (.vfloat (lf - rf))
    | "*" => .ok (.vfloat (lf * rf))
    | "/" => if rf = 0 then .error (.doomS "division by zero") else .ok (.vfloat (lf / rf))
    | "%" => .error (.doomS "modulo on floats not supported")
    | _ =>
      .error (.doomS ("cannot perform " ++ op ++ " on " ++ toString (kindCode l) ++ " and "
        ++ toString (kindCode r)))
  else
    match l, r with
    | .vint a, .vint b =>
      match op with
      | "-" => .ok (.vint (wrap64 (a - b)))
      | "*" => .ok (.vint (wrap64 (a * b)))
      | "/" =>
        if b = 0 then .error (.doomS "division by zero") else .ok (.vint (wrap64 (a.tdiv b)))
      | "%" => if b = 0 then .error (.doomS "division by zero") else .ok (.vint (a.tmod b))
      | _ =>
        .error (.doomS ("cannot perform " ++ op ++ " on " ++ toString (kindCode l) ++ " and "
          ++ toString (kindCode r)))
    | _, _ =>
      .error (.doomS ("cannot perform " ++ op ++ " on " ++ toString (kindCode l) ++ " and "
        ++ toString (kindCode r)))

/-- evalCompare mirrors the Go evalCompare: both-int comparison first, then
float widening when either side is a float, then string comparison, doom
otherwise. -/
def evalCompare (l r : Value) (op : String) : Except Signal Value :=
  match l, r with
  | .vint a, .vint b =>
    match op with
    | "<" => .ok (.vbool (a < b))
    | ">" => .ok (.vbool (a > b))
    | "<=" => .ok (.vbool (a ≤ b))
    | ">=" => .ok (.vbool (a ≥ b))
    | _ =>
      .error (.doomS ("cannot compare " ++ toString (kindCode l) ++ " and "
        ++ toString (kindCode r)))
  | _, _ =>
    if kindIsFloat l || kindIsFloat r then
      let lf := toFloat l
      let rf := toFloat r
      match op with
      | "<" => .ok (.vbool (lf < rf))
      | ">" => .ok (.vbool (lf > rf))
      | "<=" => .ok (.vbool (lf ≤ rf))
      | ">=" => .ok (.vbool (lf ≥ rf))
      | _ =>
        .error (.doomS ("cannot compare " ++ toString (kindCode l) ++ " and "
          ++ toString (kindCode r)))
    else
      match l, r with
      | .vstr a, .vstr b =>
        match op with
        | "<" => .ok (.vbool (a < b))
        | ">" => .ok (.vbool (a > b))
        | "<=" => .ok (.vbool (a ≤ b))
        | ">=" => .ok (.vbool (a ≥ b))
        | _ =>
          .error (.doomS ("cannot compare " ++ toString (kindCode l) ++ " and "
            ++ toString (kindCode r)))
      | _, _ =>
        .error (.doomS ("cannot compare " ++ toString (kindCode l) ++ " and "
          ++ toString (kindCode r)))

/-- matchesType mirrors the Go matchesType. -/
def matchesType (v : Value) (typeName : String) : Bool :=
  match typeName with
  | "int" => kindIsInt v
  | "float" => kindIsFloat v
  | "bool" => match v with | .vbool _ => true | _ => false
  | "str" | "string" => kindIsStr v
  | "array" => match v with | .varr _ => true | _ => false
  | "map" => match v with | .vmap _ => true | _ => false
  | "fn" => match v with | .vfn _ => true | _ => false
  | "ptr" => match v with | .vptr _ => true | _ => false
  | "nil" => match v with | .vnil => true | _ => false
  | "ok" => match v with | .vok _ => true | _ => false
  | "err" => match v with | .verr _ => true | _ => false
  | "result" => match v with | .vok _ => true | .verr _ => true | _ => false
  | _ => false

/-- digitsToNat converts a non-empty all-digit character list. -/
def digitsToNat (cs : List Char) : Option Nat :=
  if cs = [] || !cs.all isDigit then none
  else some (cs.foldl (fun acc c => acc * 10 + (c.toNat - 48)) 0)

/-- parseIntStr models strconv.ParseInt(s, 10, 64) on the trimmed string:
optional sign, decimal digits, 64-bit range check. -/
def parseIntStr (s : String) : Option Int :=
  match s.trim.toList with
  | '-' :: rest => (digitsToNat rest).bind fun n =>
      if (n : Int) ≤ 2 ^ 63 then some (-(n : Int)) else none
  | '+' :: rest => (digitsToNat rest).bind fun n =>
      if (n : Int) < 2 ^ 63 then some ((n : Int)) else none
  | cs => (digitsToNat cs).bind fun n =>
      if (n : Int) < 2 ^ 63 then some ((n : Int)) else none

/-- parseFloatCore parses digits with an optional fraction part. -/
def parseFloatCore (cs : List Char) : Option Rat :=
  let intPart := cs.takeWhile isDigit
  let rest := cs.dropWhile isDigit
  if intPart = [] then none
  else
    match rest with
    | [] => (digitsToNat intPart).map (fun n => (n : Rat))
    | '.' :: frac =>
      if frac = [] || !frac.all isDigit then none
      else
        (digitsToNat intPart).bind fun ip =>
          (digitsToNat frac).map fun fp =>
            (ip : Rat) + (fp : Rat) / ((10 : Rat) ^ frac.length)
    | _ => none

/-- parseFloatStr models strconv.ParseFloat on plain decimal forms
(optional sign, digits, optional fraction); exponent forms and special
values are not modelled, no claim depends on them. -/
def parseFloatStr (s : String) : Option Rat :=
  match s.trim.toList with
  | '-' :: rest => (parseFloatCore rest).map (fun q => -q)
  | '+' :: rest => parseFloatCore rest
  | cs => parseFloatCore cs

/-- ratTrunc truncates toward zero, the conversion of float64 to int64. -/
def ratTrunc (x : Rat) : Int := if 0 ≤ x then x.floor else -((-x).floor)

/-- evalAsVal mirrors the Go evalAsExpr dispatch on the target type name
after the operand has been evaluated; soft_casts turns every doom of the
cast into an err-wrap. -/
def evalAsVal (st : EvalState) (left : Value) (typeName : String) : Except Signal Value :=
  match typeName with
  | "int" =>
    match left with
    | .vint _ => .ok left
    | .vfloat x => .ok (.vint (ratTrunc x))
    | .vstr s =>
      match parseIntStr s with
      | some n => .ok (.vint n)
      | none =>
        let msg := "cannot convert " ++ quoted s ++ " to int"
        if st.decrees.softCasts then .ok (.verr (.vstr msg)) else .error (.doomS msg)
    | .vbool b => .ok (.vint (if b then 1 else 0))
    | _ =>
      let msg := "cannot cast " ++ stringifyV st left ++ " to int"
      if st.decrees.softCasts then .ok (.verr (.vstr msg)) else .error (.doomS msg)
  | "float" =>
    match left with
    | .vfloat _ => .ok left
    | .vint n => .ok (.vfloat (n : Rat))
    | .vstr s =>
      match parseFloatStr s with
      | some x => .ok (.vfloat x)
      | none =>
        let msg := "cannot convert " ++ quoted s ++ " to float"
        if st.decrees.softCasts then .ok (.verr (.vstr msg)) else .error (.doomS msg)
    | _ =>
      let msg := "cannot cast " ++ stringifyV st left ++ " to float"
      if st.decrees.softCasts then .ok (.verr (.vstr msg)) else .error (.doomS msg)
  | "str" | "string" => .ok (.vstr (stringifyV st left))
  | "bool" => .ok (.vbool left.IsTruthy)
  | _ =>
    let msg := "unknown cast target: " ++ typeName
    if st.decrees.softCasts then .ok (.verr (.vstr msg)) else .error (.doomS msg)

/-- builtinLen mirrors the Go builtinLen. -/
def builtinLen (st : EvalState) (args : List Value) : EvalRes :=
  match args with
  | [a] =>
    match a with
    | .varr ref =>
      match st.arrays[ref]? with
      | none => none
      | some elems => some (.ok (.vint (elems.length : Int)), st)
    | .vstr s => some (.ok (.vint (s.length : Int)), st)
    | .vmap ref =>
      match st.maps[ref]? with
      | none => none
      | some m => some (.ok (.vint (m.Len : Int)), st)
    | _ => some (.error (.doomS "len() argument must be array, string, or map"), st)
  | _ => some (.error (.doomS "len() takes exactly 1 argument"), st)

/-- builtinReadFile models the Go builtinReadFile against the fileSys
association list of the state (the real function performs the read through
the operating system; the missing-file message follows the usual open
error). -/
def builtinReadFile (st : EvalState) (args : List Value) : EvalRes :=
  match args with
  | [.vstr path] =>
    match assocGet st.fileSys path with
    | some content => some (.ok (.vok (.vstr content)), st)
    | none =>
      some (.ok (.verr (.vstr ("open " ++ path ++ ": no such file or directory"))), st)
  | _ => some (.ok (.verr (.vstr "read_file() takes exactly 1 string argument")), st)

/-- callBuiltin mirrors the Go callBuiltin: none when the name is not a
built-in, otherwise the result of the built-in. -/
def callBuiltin (st : EvalState) (name : String) (args : List Value) : Option EvalRes :=
  match name with
  | "len" => some (builtinLen st args)
  | "malloc" => some (some (.ok (.vptr 0), st))
  | "free" => some (some (.ok (.vok .vnil), st))
  | "read" => some (some (.ok (.vstr ""), st))
  | "write" => some (some (.ok (.vok .vnil), st))
  | "read_file" => some (builtinReadFile st args)
  | "parse_toml" => some (some (.ok (.verr (.vstr "not implemented")), st))
  | _ => none

/-- bindParams mirrors the parameter-binding loop of the Go callFunction:
parameters are defined positionally, missing arguments default to nil,
excess arguments are ignored. -/
def bindParams (id : Nat) : List String → List Value → List Scope → List Scope
  | [], _, envs => envs
  | p :: ps, [], envs => bindParams id ps [] (envDefine envs id p .vnil false)
  | p :: ps, a :: rest, envs => bindParams id ps rest (envDefine envs id p a false)

/-- defineAll defines the collected pattern bindings into a scope (the Go
range loop over the bindings map). -/
def defineAll (id : Nat) : List (String × Value) → List Scope → List Scope
  | [], envs => envs
  | (n, v) :: rest, envs => defineAll id rest (envDefine envs id n v false)

/-! ## The evaluator (internal/eval/eval.go)

Every function of the mutual block takes an explicit fuel bound and returns
none when it runs out; every recursive call steps the fuel down once at the
head of each function.  Dangling heap references (which the construction of
the evaluator never produces) are also mapped to none. -/

mutual

/-- evalItem mirrors the Go evalItem: function and extern declarations
define a closure capturing the current environment; statements are handled
as by evalStmt. -/
def evalItem (fuel : Nat) (st : EvalState) (item : Item) : EvalRes :=
  match fuel with
  | 0 => none
  | f + 1 =>
    match item with
    | .fnDecl name params body =>
      let fnv : FnValue := { name := name, params := params, body := some body,
                             envId := st.curEnv }
      let ref := st.fns.length
      some (.ok .vnil, { st with fns := st.fns ++ [fnv],
                                 envs := envDefine st.envs st.curEnv name (.vfn ref) false })
    | .exDecl name params =>
      let fnv : FnValue := { name := name, params := params, body := none,
                             envId := st.curEnv }
      let ref := st.fns.length
      some (.ok .vnil, { st with fns := st.fns ++ [fnv],
                                 envs := envDefine st.envs st.curEnv name (.vfn ref) false })
    | .stmtItem s => evalStmt f st s

/-- evalStmt mirrors the Go evalStmt. -/
def evalStmt (fuel : Nat) (st : EvalState) (s : Stmt) : EvalRes :=
  match fuel with
  | 0 => none
  | f + 1 =>
    match s with
    | .letS name ve =>
      bindE (evalExpr f st ve) fun v st1 =>
        some (.ok .vnil, { st1 with envs := envDefine st1.envs st1.curEnv name v false })
    | .constS name ve =>
      bindE (evalExpr f st ve) fun v st1 =>
        some (.ok .vnil, { st1 with envs := envDefine st1.envs st1.curEnv name v true })
    | .returnS ve =>
      bindE (evalExpr f st ve) fun v st1 => some (.error (.ret v), st1)
    | .decreeS dv => some (.ok .vnil, { st with decrees := st.decrees.apply dv })
    | .exprS e => evalExpr f st e

/-- evalStmtList runs the statement loop of a block body. -/
def evalStmtList (fuel : Nat) (st : EvalState) (stmts : List Stmt) : EvalRes :=
  match fuel with
  | 0 => none
  | f + 1 =>
    match stmts with
    | [] => some (.ok .vnil, st)
    | s :: rest => bindE (evalStmt f st s) fun _ st1 => evalStmtList f st1 rest

/-- evalExprList evaluates expressions left to right (array literal
elements and call arguments). -/
def evalExprList (fuel : Nat) (st : EvalState) (es : List Expr) :
    Option (Except Signal (List Value) × EvalState) :=
  match fuel with
  | 0 => none
  | f + 1 =>
    match es with
    | [] => some (.ok [], st)
    | e :: rest =>
      bindE (evalExpr f st e) fun v st1 =>
        bindE (evalExprList f st1 rest) fun vs st2 =>
          some (.ok (v :: vs), st2)

/-- evalMapPairs runs the pair loop of evalMapLitExpr: key then value per
pair, pairs in source order, keys normalised by stringification. -/
def evalMapPairs (fuel : Nat) (st : EvalState) (pairs : List (Expr × Expr)) (m : OrderedMap) :
    Option (Except Signal OrderedMap × EvalState) :=
  match fuel with
  | 0 => none
  | f + 1 =>
    match pairs with
    | [] => some (.ok m, st)
    | (ke, ve) :: rest =>
      bindE (evalExpr f st ke) fun k st1 =>
        bindE (evalExpr f st1 ve) fun v st2 =>
          evalMapPairs f st2 rest (m.Set (stringifyV st2 k) v)

/-- evalExpr mirrors the Go evalExpr dispatch. -/
def evalExpr (fuel : Nat) (st : EvalState) (e : Expr) : EvalRes :=
  match fuel with
  | 0 => none
  | f + 1 =>
    match e with
    | .intLit n => some (.ok (.vint n), st)
    | .floatLit x => some (.ok (.vfloat x), st)
    | .strLit s => some (.ok (.vstr s), st)
    | .boolLit b => some (.ok (.vbool b), st)
    | .nilLit => some (.ok .vnil, st)
    | .identE name =>
      match envGet st.envs st.curEnv name with
      | .ok v => some (.ok v, st)
      | .error msg => some (.error (.doomS msg), st)
    | .arrayLit elems =>
      bindE (evalExprList f st elems) fun vs st1 =>
        some (.ok (.varr st1.arrays.length), { st1 with arrays := st1.arrays ++ [vs] })
    | .mapLit pairs =>
      bindE (evalMapPairs f st pairs NewOrderedMap) fun m st1 =>
        some (.ok (.vmap st1.maps.length), { st1 with maps := st1.maps ++ [m] })
    | .binary op l r => evalBinaryExpr f st op l r
    | .unary op r =>
      bindE (evalExpr f st r) fun rv st1 =>
        if op = "-" then
          match rv with
          | .vint n => some (.ok (.vint (wrap64 (-n))), st1)
          | .vfloat x => some (.ok (.vfloat (-x)), st1)
          | _ => some (.error (.doomS "cannot negate non-numeric value"), st1)
        else if op = "!" then some (.ok (.vbool (!rv.IsTruthy)), st1)
        else if op = "&" then some (.ok (.vptr 0), st1)
        else some (.error (.doomS ("unknown unary operator: " ++ op)), st1)
    | .assign name ve =>
      bindE (evalExpr f st ve) fun v st1 =>
        match envSet st1.envs st1.curEnv name v with
        | .ok envs2 => some (.ok v, { st1 with envs := envs2 })
        | .error msg => some (.error (.doomS msg), st1)
    | .indexAssign le ie ve =>
      bindE (evalExpr f st le) fun lv st1 =>
        bindE (evalExpr f st1 ie) fun iv st2 =>
          bindE (evalExpr f st2 ve) fun v st3 =>
            match lv with
            | .varr ref =>
              (match iv with
               | .vint n =>
                 let idx := adjustIndex st3 n
                 (match st3.arrays[ref]? with
                  | none => none
                  | some arr =>
                    if idx < 0 || (arr.length : Int) ≤ idx then
                      some (.error (.doomS ("array index out of bounds: " ++ toString idx)), st3)
                    else
                      some (.ok v,
                        { st3 with arrays := st3.arrays.set ref (arr.set idx.toNat v) }))
               | _ => some (.error (.doomS "array index must be int"), st3))
            | .vmap ref =>
              (match st3.maps[ref]? with
               | none => none
               | some m =>
                 some (.ok v,
                   { st3 with maps := st3.maps.set ref (m.Set (stringifyV st3 iv) v) }))
            | _ =>
              some (.error (.doomS ("cannot assign to index of " ++ stringifyV st3 lv)), st3)
    | .dotAssign le field ve =>
      bindE (evalExpr f st le) fun lv st1 =>
        bindE (evalExpr f st1 ve) fun v st2 =>
          match lv with
          | .vmap ref =>
            (match st2.maps[ref]? with
             | none => none
             | some m =>
               some (.ok v, { st2 with maps := st2.maps.set ref (m.Set field v) }))
          | _ =>
            some (.error (.doomS ("cannot assign field " ++ field ++ " on "
              ++ stringifyV st2 lv)), st2)
    | .call fnE args =>
      bindE (evalExprList f st args) fun argVals st1 =>
        let builtinRes :=
          match fnE with
          | .identE name => callBuiltin st1 name argVals
          | _ => none
        match builtinRes with
        | some r => r
        | none =>
          bindE (evalExpr f st1 fnE) fun fv st2 =>
            match fv with
            | .vfn ref =>
              (match st2.fns[ref]? with
               | none => none
               | some fnv => callFunction f st2 fnv argVals)
            | _ =>
              some (.error (.doomS ("cannot call non-function: " ++ stringifyV st2 fv)), st2)
    | .indexE le ie =>
      bindE (evalExpr f st le) fun lv st1 =>
        bindE (evalExpr f st1 ie) fun iv st2 =>
          match lv with
          | .varr ref =>
            (match iv with
             | .vint n =>
               let idx := adjustIndex st2 n
               (match st2.arrays[ref]? with
                | none => none
                | some arr =>
                  if idx < 0 || (arr.length : Int) ≤ idx then
                    some (.error (.doomS ("array index out of bounds: " ++ toString idx)), st2)
                  else
                    match arr[idx.toNat]? with
                    | some elem => some (.ok elem, st2)
                    | none => none)
             | _ => some (.error (.doomS "array index must be int"), st2))
          | .vmap ref =>
            (match st2.maps[ref]? with
             | none => none
             | some m =>
               match m.Get (stringifyV st2 iv) with
               | some v => some (.ok v, st2)
               | none => some (.ok .vnil, st2))
          | .vstr s =>
            (match iv with
             | .vint n =>
               let runes := s.toList
               let idx := adjustIndex st2 n
               if idx < 0 || (runes.length : Int) ≤ idx then
                 some (.error (.doomS ("string index out of bounds: " ++ toString idx)), st2)
               else
                 match runes[idx.toNat]? with
                 | some c => some (.ok (.vstr (String.mk [c])), st2)
                 | none => none
             | _ => some (.error (.doomS "string index must be int"), st2))
          | _ => some (.error (.doomS ("cannot index into " ++ stringifyV st2 lv)), st2)
    | .dotE le field =>
      bindE (evalExpr f st le) fun lv st1 =>
        match lv with
        | .vmap ref =>
          (match st1.maps[ref]? with
           | none => none
           | some m =>
             match m.Get field with
             | some v => some (.ok v, st1)
             | none => some (.ok .vnil, st1))
        | _ =>
          some (.error (.doomS ("cannot access field " ++ field ++ " on "
            ++ stringifyV st1 lv)), st1)
    | .propagateE inner =>
      bindE (evalExpr f st inner) fun v st1 =>
        match v with
        | .vok i => some (.ok i, st1)
        | .verr i => some (.error (.prop i), st1)
        | .vnil => some (.error (.prop (.vstr "nil")), st1)
        | _ => some (.ok v, st1)
    | .ifE cond thenB els =>
      bindE (evalExpr f st cond) fun cv st1 =>
        if cv.IsTruthy then evalBlockExpr f st1 thenB
        else
          match els with
          | some ee => evalExpr f st1 ee
          | none => some (.ok .vnil, st1)
    | .matchE subj arms =>
      bindE (evalExpr f st subj) fun sv st1 => evalMatchArms f st1 arms sv
    | .guardE cond elseB =>
      bindE (evalExpr f st cond) fun cv st1 =>
        if !cv.IsTruthy then
          bindE (evalExpr f st1 elseB) fun ev st2 => some (.error (.guardRet ev), st2)
        else some (.ok .vnil, st1)
    | .blockE b => evalBlockExpr f st b
    | .okE inner =>
      bindE (evalExpr f st inner) fun v st1 => some (.ok (.vok v), st1)
    | .errE inner =>
      bindE (evalExpr f st inner) fun v st1 => some (.ok (.verr v), st1)
    | .asE le tname =>
      bindE (evalExpr f st le) fun lv st1 => some (evalAsVal st1 lv tname, st1)
    | .speakE ve _ =>
      -- The write to the output list cannot fail, so the write-error path of
      -- the Go code (else body or err-wrap) is unreachable in the model.
      bindE (evalExpr f st ve) fun v st1 =>
        some (.ok (.vok .vnil), { st1 with output := st1.output ++ [stringifyV st1 v] })
    | .doomE me =>
      bindE (evalExpr f st me) fun mv st1 =>
        some (.error (.doomS (stringifyV st1 mv)), st1)
    | .apologyE name =>
      if st.decrees.noForgiveness then some (.ok (.verr (.vstr "no")), st)
      else
        match envForgive st.envs st.curEnv name with
        | .ok envs2 => some (.ok (.vok .vnil), { st with envs := envs2 })
        | .error msg => some (.ok (.verr (.vstr msg)), st)
    | .chantE arg =>
      bindE (evalExpr f st arg) fun _ st1 => some (.ok (.vok .vnil), st1)
    | .spawnE body =>
      bindE (evalBlockExpr f st body) fun _ st1 => some (.ok .vnil, st1)
    | .awaitAllE => some (.ok .vnil, st)
    | .fnLit _ _ =>
      -- FnLitExpr has no case in the Go evalExpr switch and falls to the
      -- default branch.
      some (.error (.doomS "unknown expr type: *parser.FnLitExpr"), st)

/-- evalBinaryExpr mirrors the Go evalBinaryExpr, including short-circuit
logical operators and the ambitious-mode reinterpretation of the double
equals operator as assignment when the right side is truthy. -/
def evalBinaryExpr (fuel : Nat) (st : EvalState) (op : String) (le re : Expr) : EvalRes :=
  match fuel with
  | 0 => none
  | f + 1 =>
    bindE (evalExpr f st le) fun left st1 =>
      if op = "and" then
        if !left.IsTruthy then some (.ok left, st1) else evalExpr f st1 re
      else if op = "or" then
        if left.IsTruthy then some (.ok left, st1) else evalExpr f st1 re
      else
        bindE (evalExpr f st1 re) fun right st2 =>
          if op = "+" then some (evalAdd st2 left right, st2)
          else if op = "-" || op = "*" || op = "/" || op = "%" then
            some (evalArith left right op, st2)
          else if op = "==" then
            if st2.decrees.ambitiousMode && right.IsTruthy then
              match le with
              | .identE name =>
                (match envSet st2.envs st2.curEnv name right with
                 | .ok envs2 => some (.ok right, { st2 with envs := envs2 })
                 | .error msg => some (.error (.doomS msg), st2))
              | .indexE cle cie =>
                bindE (evalExpr f st2 cle) fun collection st3 =>
                  bindE (evalExpr f st3 cie) fun index st4 =>
                    match collection with
                    | .varr ref =>
                      (match index with
                       | .vint n =>
                         let idx := adjustIndex st4 n
                         (match st4.arrays[ref]? with
                          | none => none
                          | some arr =>
                            if 0 ≤ idx && idx < (arr.length : Int) then
                              some (.ok right,
                                { st4 with arrays := st4.arrays.set ref (arr.set idx.toNat right) })
                            else some (.ok right, st4))
                       | _ => some (.ok right, st4))
                    | .vmap ref =>
                      (match st4.maps[ref]? with
                       | none => none
                       | some m =>
                         some (.ok right,
                           { st4 with maps := st4.maps.set ref (m.Set (stringifyV st4 index) right) }))
                    | _ => some (.ok right, st4)
              | .dotE cle field =>
                bindE (evalExpr f st2 cle) fun obj st3 =>
                  match obj with
                  | .vmap ref =>
                    (match st3.maps[ref]? with
                     | none => none
                     | some m =>
                       some (.ok right,
                         { st3 with maps := st3.maps.set ref (m.Set field right) }))
                  | _ => some (.ok right, st3)
              | _ => some (.ok (.vbool (valuesEqual left right)), st2)
            else some (.ok (.vbool (valuesEqual left right)), st2)
          else if op = "===" then some (.ok (.vbool (valuesStrictEqual left right)), st2)
          else if op = "!=" then some (.ok (.vbool (!valuesEqual left right)), st2)
          else if op = "<" || op = ">" || op = "<=" || op = ">=" then
            some (evalCompare left right op, st2)
          else some (.error (.doomS ("unknown operator: " ++ op)), st2)

/-- evalBlockExpr mirrors the Go evalBlockExpr: push a child scope, run the
statements, evaluate the optional trailing expression, restore the saved
environment on every exit path. -/
def evalBlockExpr (fuel : Nat) (st : EvalState) (b : Block) : EvalRes :=
  match fuel with
  | 0 => none
  | f + 1 =>
    let alloc := allocScope st.envs (some st.curEnv)
    let savedEnv := st.curEnv
    let st1 := { st with envs := alloc.2, curEnv := alloc.1 }
    match evalStmtList f st1 b.stmts with
    | none => none
    | some (.error sig, st2) => some (.error sig, { st2 with curEnv := savedEnv })
    | some (.ok _, st2) =>
      match b.finalExpr with
      | some fe =>
        (match evalExpr f st2 fe with
         | none => none
         | some (.error sig, st3) => some (.error sig, { st3 with curEnv := savedEnv })
         | some (.ok v, st3) => some (.ok v, { st3 with curEnv := savedEnv }))
      | none => some (.ok .vnil, { st2 with curEnv := savedEnv })

/-- callFunction mirrors the Go callFunction: extern stubs return nil, a
fresh child of the captured environment receives the positional parameter
bindings, the body block is evaluated there, and the signals are absorbed
at this boundary: return and guard-return become the result, propagate
becomes an err-wrap, doom is re-raised. -/
def callFunction (fuel : Nat) (st : EvalState) (fn : FnValue) (args : List Value) : EvalRes :=
  match fuel with
  | 0 => none
  | f + 1 =>
    match fn.body with
    | none => some (.ok .vnil, st)
    | some b =>
      let alloc := allocScope st.envs (some fn.envId)
      let envs2 := bindParams alloc.1 fn.params args alloc.2
      let savedEnv := st.curEnv
      let st1 := { st with envs := envs2, curEnv := alloc.1 }
      match evalBlockExpr f st1 b with
      | none => none
      | some (r, st2) =>
        let st3 := { st2 with curEnv := savedEnv }
        match r with
        | .ok v => some (.ok v, st3)
        | .error (.ret v) => some (.ok v, st3)
        | .error (.guardRet v) => some (.ok v, st3)
        | .error (.prop v) => some (.ok (.verr v), st3)
        | .error (.doomS m) => some (.error (.doomS m), st3)

/-- evalMatchArms mirrors the arm loop of the Go evalMatchExpr: arms are
tried in order; the first match introduces its bindings into a fresh child
scope, the body is evaluated there, and the saved environment is restored;
no match dooms with the exhaustion message. -/
def evalMatchArms (fuel : Nat) (st : EvalState) (arms : List (Pattern × Expr)) (subject : Value) :
    EvalRes :=
  match fuel with
  | 0 => none
  | f + 1 =>
    match arms with
    | [] =>
      some (.error (.doomS ("match exhausted: no arm matched value "
        ++ stringifyV st subject)), st)
    | (pat, body) :: rest =>
      match matchPattern f st pat subject with
      | none => none
      | some ((false, _), st1) => evalMatchArms f st1 rest subject
      | some ((true, bindings), st1) =>
        let alloc := allocScope st1.envs (some st1.curEnv)
        let envs2 := defineAll alloc.1 bindings alloc.2
        let savedEnv := st1.curEnv
        let st2 := { st1 with envs := envs2, curEnv := alloc.1 }
        match evalExpr f st2 body with
        | none => none
        | some (r, st3) => some (r, { st3 with curEnv := savedEnv })

/-- matchPattern mirrors the Go matchPattern: it reports whether the
pattern matched and the bindings it produced; evaluation errors inside
literal or guard expressions make the pattern fail to match (their state
effects persist, as in the Go code). -/
def matchPattern (fuel : Nat) (st : EvalState) (pat : Pattern) (subject : Value) :
    Option ((Bool × List (String × Value)) × EvalState) :=
  match fuel with
  | 0 => none
  | f + 1 =>
    match pat with
    | .wildcard => some ((true, []), st)
    | .literalP ve =>
      (match evalExpr f st ve with
       | none => none
       | some (.error _, st1) => some ((false, []), st1)
       | some (.ok litVal, st1) => some ((valuesEqual subject litVal, []), st1))
    | .identP name =>
      if name.startsWith "ok(" && name.endsWith ")" then
        let inner := (name.drop 3).dropRight 1
        match subject with
        | .vok iv => some ((true, if inner = "" then [] else [(inner, iv)]), st)
        | _ => some ((false, []), st)
      else if name.startsWith "err(" && name.endsWith ")" then
        let inner := (name.drop 4).dropRight 1
        match subject with
        | .verr iv => some ((true, if inner = "" then [] else [(inner, iv)]), st)
        | _ => some ((false, []), st)
      else some ((true, [(name, subject)]), st)
    | .typedP name tname =>
      if matchesType subject tname then some ((true, [(name, subject)]), st)
      else some ((false, []), st)
    | .guardedP inner guardCond =>
      match matchPattern f st inner subject with
      | none => none
      | some ((false, _), st1) => some ((false, []), st1)
      | some ((true, innerBindings), st1) =>
        let alloc := allocScope st1.envs (some st1.curEnv)
        let envs2 := defineAll alloc.1 innerBindings alloc.2
        let savedEnv := st1.curEnv
        let st2 := { st1 with envs := envs2, curEnv := alloc.1 }
        match evalExpr f st2 guardCond with
        | none => none
        | some (.error _, st3) => some ((false, []), { st3 with curEnv := savedEnv })
        | some (.ok gv, st3) =>
          if gv.IsTruthy then some ((true, innerBindings), { st3 with curEnv := savedEnv })
          else some ((false, []), { st3 with curEnv := savedEnv })

end

/-- evalItemsLoop mirrors the item loop of the Go Eval, converting escaping
signals to dooms: guard-return, propagate and return each yield a doom with
the documented message, a doom passes through unchanged; the value of the
last item (nil for an empty program) is the result. -/
def evalItemsLoop (fuel : Nat) (st : EvalState) :
    List Item → Option Value → Option (Except Signal Value × EvalState)
  | [], acc =>
    some (.ok (match acc with | some v => v | none => .vnil), st)
  | item :: rest, _acc =>
    match evalItem fuel st item with
    | none => none
    | some (.error sig, st1) =>
      (match sig with
       | .guardRet v =>
         some (.error (.doomS ("unhandled guard return: " ++ stringifyV st1 v)), st1)
       | .prop v =>
         some (.error (.doomS ("unhandled error propagation: " ++ stringifyV st1 v)), st1)
       | .ret _ => some (.error (.doomS "return outside function"), st1)
       | .doomS m => some (.error (.doomS m), st1))
    | some (.ok v, st1) => evalItemsLoop fuel st1 rest (some v)

/-- evalProgram mirrors the Go Eval entry point. -/
def evalProgram (fuel : Nat) (st : EvalState) (prog : Program) :
    Option (Except Signal Value × EvalState) :=
  evalItemsLoop fuel st prog.items none

/-! ## Specification-side helpers used by the theorem statements -/

/-- leadsWith tests whether the first list is an initial segment of the
second. -/
def leadsWith : List Char → List Char → Bool
  | [], _ => true
  | _ :: _, [] => false
  | a :: as1, b :: bs => a = b && leadsWith as1 bs

/-- strContainsL tests whether the needle occurs contiguously in the hay. -/
def strContainsL (needle : List Char) : List Char → Bool
  | [] => leadsWith needle []
  | c :: rest => leadsWith needle (c :: rest) || strContainsL needle rest

/-- strContains tests substring containment. -/
def strContains (hay needle : String) : Bool := strContainsL needle.toList hay.toList

/-- distinctInOrder keeps the first occurrence of every element, in order. -/
def distinctInOrder : List String → List String
  | [] => []
  | k :: rest => k :: distinctInOrder (rest.filter (fun x => x ≠ k))
termination_by l => l.length
decreasing_by
  simp only [List.length_cons]
  exact Nat.lt_succ_of_le (List.length_filter_le _ _)

/-- lastAssign finds the value of the last assignment to a key in an
operation sequence. -/
def lastAssign (k : String) : List (String × Value) → Option Value
  | [] => none
  | (k1, v) :: rest =>
    match lastAssign k rest with
    | some v2 => some v2
    | none => if k1 = k then some v else none

/-- applyOps folds a sequence of Set operations over an ordered map. -/
def applyOps (m : OrderedMap) : List (String × Value) → OrderedMap
  | [] => m
  | (k, v) :: rest => applyOps (m.Set k v) rest

/-- forgivenScope is a scope after a successful Forgive of one binding. -/
def forgivenScope (sc : Scope) (name : String) (b : Binding) : Scope :=
  { sc with bindings := assocSet sc.bindings name { b with forgiven := true } }

/-- setValueAt is the scope-heap update of a successful Set: the named
binding of the given scope gets its value replaced, const and forgiven
flags untouched. -/
def setValueAt (envs : List Scope) (id : Nat) (name : String) (sc : Scope) (b : Binding)
    (v : Value) : List Scope :=
  envs.set id { sc with bindings := assocSet sc.bindings name { b with value := v } }

/-- forgiveAt is the scope-heap update performed by a successful Forgive:
the named binding of the given scope gets forgiven set to true. -/
def forgiveAt (envs : List Scope) (id : Nat) (name : String) (sc : Scope) (b : Binding) :
    List Scope :=
  envs.set id (forgivenScope sc name b)

/-- padArgs is the value sequence the parameter-binding loop assigns to the
parameters in order: the first min(n, m) argument values, then nil for each
missing argument (excess arguments do not appear). -/
def padArgs (params : List String) (args : List Value) : List Value :=
  args.take params.length ++ List.replicate (params.length - args.length) Value.vnil

/-- mkBind is the non-const unforgiven binding holding a value (the shape
Define gives parameter and pattern bindings). -/
def mkBind (v : Value) : Binding := { value := v, isConst := false, forgiven := false }

/-- paramBindings is the binding list the parameter loop appends to a fresh
call scope when the parameter names are distinct: each parameter next to
its padArgs value. -/
def paramBindings (params : List String) (args : List Value) : List (String × Binding) :=
  (params.zip (padArgs params args)).map (fun pa => (pa.1, mkBind pa.2))

/-- callEntryState is the evaluator state at entry to a user function body:
a fresh child scope of the captured environment, holding the positional
parameter bindings, installed as the current environment. -/
def callEntryState (st : EvalState) (fn : FnValue) (args : List Value) : EvalState :=
  { st with
    envs := bindParams (allocScope st.envs (some fn.envId)).1 fn.params args
      (allocScope st.envs (some fn.envId)).2,
    curEnv := (allocScope st.envs (some fn.envId)).1 }

/-- armEntryState is the evaluator state at entry to a matched arm body: a
fresh child scope of the current environment holding the pattern bindings,
installed as the current environment. -/
def armEntryState (st1 : EvalState) (bindings : List (String × Value)) : EvalState :=
  { st1 with
    envs := defineAll (allocScope st1.envs (some st1.curEnv)).1 bindings
      (allocScope st1.envs (some st1.curEnv)).2,
    curEnv := (allocScope st1.envs (some st1.curEnv)).1 }

/-- OMapInv is the agreement invariant of an ordered map: the key list has
no duplicates and holds exactly the domain of the mapping. -/
def OMapInv (m : OrderedMap) : Prop :=
  m.keys.Nodup ∧ ∀ k, k ∈ m.keys ↔ (assocGet m.values k).isSome


/-! ## Theorems

Helper lemmas come first, then one theorem per claim (with its
counterexample and witness theorems where the claim status calls for
them). -/

theorem assocGet_assocSet {α : Type} (l : List (String × α)) (k k1 : String) (v : α) :
    assocGet (assocSet l k v) k1 = if k = k1 then some v else assocGet l k1 := by
  induction l with
  | nil => simp [assocSet, assocGet]
  | cons hd tl ih =>
    obtain ⟨k2, v2⟩ := hd
    by_cases h2 : k2 = k
    · by_cases h1 : k = k1 <;> simp [assocSet, assocGet, h2, h1]
    · by_cases h3 : k2 = k1
      · have h1 : ¬ k = k1 := by
          intro h
          exact h2 (h3.trans h.symm)
        have h4 : ¬ k1 = k := by
          rw [← h3]
          exact h2
        simp [assocSet, assocGet, h2, h3, h1, h4]
      · simp [assocSet, assocGet, h2, h3, ih]

theorem omap_set_keys (m : OrderedMap) (k : String) (v : Value) :
    (m.Set k v).keys = if (assocGet m.values k).isSome then m.keys else m.keys ++ [k] := by
  simp [OrderedMap.Set]

theorem omap_set_get (m : OrderedMap) (k k1 : String) (v : Value) :
    (m.Set k v).Get k1 = if k = k1 then some v else m.Get k1 := by
  simp [OrderedMap.Get, OrderedMap.Set, assocGet_assocSet]

theorem omap_set_inv (m : OrderedMap) (k : String) (v : Value) (hm : OMapInv m) :
    OMapInv (m.Set k v) := by
  obtain ⟨hnd, hdom⟩ := hm
  constructor
  · rw [omap_set_keys]
    by_cases hk : (assocGet m.values k).isSome
    · simpa [hk] using hnd
    · simp only [hk, if_false]
      refine List.Nodup.append hnd (by simp) ?_
      intro a ha hb
      rw [List.mem_singleton] at hb
      subst hb
      exact hk ((hdom a).mp ha)
  · intro x
    have hv : assocGet (m.Set k v).values x = if k = x then some v else assocGet m.values x := by
      simp [OrderedMap.Set, assocGet_assocSet]
    rw [omap_set_keys, hv]
    by_cases hkx : k = x
    · subst hkx
      by_cases hk : (assocGet m.values k).isSome
      · simp [hk, (hdom k).mpr hk]
      · simp [hk]
    · by_cases hk : (assocGet m.values k).isSome
      · simp [hk, hdom x, hkx]
      · have : ¬ x = k := fun h => hkx h.symm
        simp [hk, hdom x, hkx, this]

theorem applyOps_spec (ops : List (String × Value)) :
    ∀ m : OrderedMap, OMapInv m →
      (applyOps m ops).keys
        = m.keys ++ distinctInOrder ((ops.map Prod.fst).filter
            (fun x => !(assocGet m.values x).isSome)) ∧
      OMapInv (applyOps m ops) ∧
      (∀ k, (applyOps m ops).Get k
        = match lastAssign k ops with
          | some v => some v
          | none => m.Get k) := by
  induction ops with
  | nil =>
    intro m hm
    refine ⟨by simp [applyOps, distinctInOrder], by simpa [applyOps] using hm, ?_⟩
    intro k
    simp [applyOps, lastAssign]
  | cons p rest ih =>
    obtain ⟨k, v⟩ := p
    intro m hm
    have hsetvals : ∀ x, assocGet (m.Set k v).values x
        = if k = x then some v else assocGet m.values x := by
      intro x
      simp [OrderedMap.Set, assocGet_assocSet]
    have hinv : OMapInv (m.Set k v) := omap_set_inv m k v hm
    obtain ⟨hnd, hdom⟩ := hm
    obtain ⟨ihkeys, ihinv, ihget⟩ := ih (m.Set k v) hinv
    refine ⟨?_, by simpa [applyOps] using ihinv, ?_⟩
    · show (applyOps (m.Set k v) rest).keys = _
      rw [ihkeys, omap_set_keys]
      by_cases hk : (assocGet m.values k).isSome
      · simp only [hk, if_true, List.map_cons]
        have hfeq : ((rest.map Prod.fst).filter (fun x => !(assocGet (m.Set k v).values x).isSome))
            = ((rest.map Prod.fst).filter (fun x => !(assocGet m.values x).isSome)) := by
          refine List.filter_congr ?_
          intro x _
          rw [hsetvals x]
          by_cases hkx : k = x
          · rw [← hkx]
            simp [hk]
          · simp [hkx]
        rw [hfeq]
        obtain ⟨w, hw⟩ := Option.isSome_iff_exists.mp hk
        have hcons : (k :: rest.map Prod.fst).filter (fun x => !(assocGet m.values x).isSome)
            = (rest.map Prod.fst).filter (fun x => !(assocGet m.values x).isSome) := by
          simp [List.filter_cons, hw]
        rw [hcons]
      · have hnone : assocGet m.values k = none :=
          Option.not_isSome_iff_eq_none.mp (by simpa using hk)
        simp only [hk, if_false, List.map_cons]
        have hcons : (k :: rest.map Prod.fst).filter (fun x => !(assocGet m.values x).isSome)
            = k :: (rest.map Prod.fst).filter (fun x => !(assocGet m.values x).isSome) := by
          simp [List.filter_cons, hnone]
        rw [hcons, distinctInOrder]
        have hff : (((rest.map Prod.fst).filter (fun x => !(assocGet m.values x).isSome)).filter
              (fun x => x ≠ k))
            = ((rest.map Prod.fst).filter (fun x => !(assocGet (m.Set k v).values x).isSome)) := by
          rw [List.filter_filter]
          refine List.filter_congr ?_
          intro x _
          rw [hsetvals x]
          by_cases hkx : k = x
          · rw [← hkx]
            simp
          · have : ¬ x = k := fun h => hkx h.symm
            simp [hkx, this]
        rw [hff]
        simp
    · intro k1
      show (applyOps (m.Set k v) rest).Get k1 = _
      rw [ihget k1, omap_set_get]
      cases hla : lastAssign k1 rest with
      | some v2 => simp [lastAssign, hla]
      | none =>
        simp only [lastAssign, hla]
        by_cases hkk : k = k1 <;> simp [hkk]



/-- C9: for every finite sequence of Set operations on a fresh OrderedMap,
Keys lists exactly the distinct keys ever set in order of first assignment
(re-assignment neither moves a key nor duplicates it), the key list and the
key set agree exactly, Get returns the last assigned value, and Len equals
the number of distinct keys. -/
theorem C9_ordered_map_insertion_order (ops : List (String × Value)) :
    (applyOps NewOrderedMap ops).Keys = distinctInOrder (ops.map Prod.fst) ∧
    (applyOps NewOrderedMap ops).Keys.Nodup ∧
    (∀ k, k ∈ (applyOps NewOrderedMap ops).Keys ↔ ((applyOps NewOrderedMap ops).Get k).isSome) ∧
    (∀ k, (applyOps NewOrderedMap ops).Get k = lastAssign k ops) ∧
    (applyOps NewOrderedMap ops).Len = (distinctInOrder (ops.map Prod.fst)).length := by
  have hbase : OMapInv NewOrderedMap := by
    constructor
    · simp [NewOrderedMap]
    · intro k
      simp [NewOrderedMap, assocGet]
  obtain ⟨hkeys, hinv, hget⟩ := applyOps_spec ops NewOrderedMap hbase
  obtain ⟨hnd, hdom⟩ := hinv
  have hfilter : (ops.map Prod.fst).filter
      (fun x => !(assocGet (NewOrderedMap).values x).isSome) = ops.map Prod.fst := by
    simp [NewOrderedMap, assocGet]
  rw [hfilter] at hkeys
  have hget2 : ∀ k, (applyOps NewOrderedMap ops).Get k = lastAssign k ops := by
    intro k
    rw [hget k]
    cases lastAssign k ops <;> simp [OrderedMap.Get, NewOrderedMap, assocGet]
  refine ⟨?_, ?_, ?_, hget2, ?_⟩
  · simpa [OrderedMap.Keys, NewOrderedMap] using hkeys
  · simpa [OrderedMap.Keys] using hnd
  · intro k
    simpa [OrderedMap.Keys, OrderedMap.Get] using hdom k
  · simp only [OrderedMap.Len, OrderedMap.Keys]
    rw [show (applyOps NewOrderedMap ops).keys = distinctInOrder (ops.map Prod.fst) by
      simpa [NewOrderedMap] using hkeys]

theorem assocSet_append_of_none {α : Type} (l : List (String × α)) (k : String) (v : α)
    (h : assocGet l k = none) : assocSet l k v = l ++ [(k, v)] := by
  induction l with
  | nil => rfl
  | cons hd tl ih =>
    obtain ⟨k1, v1⟩ := hd
    by_cases hk : k1 = k
    · rw [assocGet, if_pos hk] at h
      exact Option.noConfusion h
    · rw [assocGet, if_neg hk] at h
      simp [assocSet, hk, ih h]

theorem assocGet_append_single_none {α : Type} (l : List (String × α)) (p q : String) (v : α)
    (h : assocGet l q = none) (hne : ¬ p = q) : assocGet (l ++ [(p, v)]) q = none := by
  induction l with
  | nil => simp [assocGet, hne]
  | cons hd tl ih =>
    obtain ⟨k1, v1⟩ := hd
    by_cases hk : k1 = q
    · rw [assocGet, if_pos hk] at h
      exact Option.noConfusion h
    · rw [assocGet, if_neg hk] at h
      simp only [List.cons_append, assocGet, if_neg hk]
      exact ih h

theorem padArgs_length (params : List String) (args : List Value) :
    (padArgs params args).length = params.length := by
  simp [padArgs]
  omega

theorem paramBindings_cons_cons (p : String) (ps : List String) (a : Value) (rest : List Value) :
    paramBindings (p :: ps) (a :: rest) = (p, mkBind a) :: paramBindings ps rest := by
  simp [paramBindings, padArgs, List.take_succ_cons, Nat.succ_sub_succ]

theorem paramBindings_cons_nil (p : String) (ps : List String) :
    paramBindings (p :: ps) [] = (p, mkBind Value.vnil) :: paramBindings ps [] := by
  simp [paramBindings, padArgs, List.replicate_succ]

theorem bindParams_at (params : List String) :
    ∀ (args : List Value) (envs : List Scope) (id : Nat) (sc : Scope),
      envs[id]? = some sc → params.Nodup →
      (∀ p ∈ params, assocGet sc.bindings p = none) →
      (bindParams id params args envs)[id]?
        = some { sc with bindings := sc.bindings ++ paramBindings params args } := by
  induction params with
  | nil =>
    intro args envs id sc hsc _ _
    simp [bindParams, paramBindings, padArgs, hsc]
  | cons p ps ih =>
    intro args envs id sc hsc hnd hfresh
    have hid : id < envs.length := by
      by_contra hge
      rw [List.getElem?_eq_none (le_of_not_lt hge)] at hsc
      exact Option.noConfusion hsc
    have hfp : assocGet sc.bindings p = none := hfresh p (by simp)
    obtain ⟨hnp, hndps⟩ := List.nodup_cons.mp hnd
    rcases args with _ | ⟨a, rest⟩
    · have hdef : (envDefine envs id p Value.vnil false)[id]?
          = some { sc with bindings := sc.bindings ++ [(p, mkBind Value.vnil)] } := by
        rw [envDefine, hsc]
        rw [List.getElem?_set_self (by simpa using hid)]
        rw [assocSet_append_of_none _ _ _ hfp]
        rfl
      have hfresh2 : ∀ q ∈ ps,
          assocGet ({ sc with bindings := sc.bindings ++ [(p, mkBind Value.vnil)] } : Scope).bindings q
            = none := by
        intro q hq
        exact assocGet_append_single_none _ _ _ _ (hfresh q (by simp [hq]))
          (fun h => hnp (h ▸ hq))
      have hrec := ih [] (envDefine envs id p Value.vnil false) id _ hdef hndps hfresh2
      rw [bindParams, hrec, paramBindings_cons_nil]
      simp [List.append_assoc]
    · have hdef : (envDefine envs id p a false)[id]?
          = some { sc with bindings := sc.bindings ++ [(p, mkBind a)] } := by
        rw [envDefine, hsc]
        rw [List.getElem?_set_self (by simpa using hid)]
        rw [assocSet_append_of_none _ _ _ hfp]
        rfl
      have hfresh2 : ∀ q ∈ ps,
          assocGet ({ sc with bindings := sc.bindings ++ [(p, mkBind a)] } : Scope).bindings q
            = none := by
        intro q hq
        exact assocGet_append_single_none _ _ _ _ (hfresh q (by simp [hq]))
          (fun h => hnp (h ▸ hq))
      have hrec := ih rest (envDefine envs id p a false) id _ hdef hndps hfresh2
      rw [bindParams, hrec, paramBindings_cons_cons]
      simp [List.append_assoc]

theorem readChar_lastToken (l : Lexer) : (readChar l).lastToken = l.lastToken := rfl

theorem skipLineComment_lastToken (fuel : Nat) :
    ∀ l : Lexer, (skipLineComment fuel l).lastToken = l.lastToken := by
  induction fuel with
  | zero => intro l; rfl
  | succ f ih =>
    intro l
    rw [skipLineComment]
    split
    · rw [ih, readChar_lastToken]
    · rfl

theorem skipBlockCommentLoop_lastToken (fuel : Nat) :
    ∀ d l, (skipBlockCommentLoop fuel d l).lastToken = l.lastToken := by
  induction fuel with
  | zero => intro d l; rfl
  | succ f ih =>
    intro d l
    rw [skipBlockCommentLoop]
    split
    · split
      · split
        · rw [ih]; rfl
        · rw [ih]; rfl
      · split
        · rw [ih]; rfl
        · rw [ih]
          split <;> rfl
    · rfl

theorem skipWC_lastToken (fuel : Nat) :
    ∀ l saw, (skipWhitespaceAndComments fuel l saw).1.lastToken = l.lastToken := by
  induction fuel with
  | zero => intro l saw; rfl
  | succ f ih =>
    intro l saw
    rw [skipWhitespaceAndComments]
    split
    · rw [ih, readChar_lastToken]
    · split
      · rw [ih]; rfl
      · split
        · split
          · rw [ih, skipBlockComment, skipBlockCommentLoop_lastToken, readChar_lastToken,
              readChar_lastToken]
          · rw [ih, skipLineComment_lastToken]
        · rfl

theorem nt_lastToken (fuel : Nat) (l : Lexer) :
    ((nextToken fuel l).2.2).lastToken = (nextToken fuel l).1 := by
  rw [nextToken]
  split_ifs <;> rfl

theorem nt_syn_trigger (fuel : Nat) (l : Lexer)
    (h : (nextToken fuel l).2.1 = true) :
    SemicolonTrigger l.lastToken.type = true := by
  rw [nextToken] at h
  split_ifs at h with h1 h2 h3
  · rw [← skipWC_lastToken fuel l false]
    simp only [Bool.and_eq_true] at h1
    exact h1.1.2
  · rw [← skipWC_lastToken fuel l false]
    exact h3

theorem nt_syn_type (fuel : Nat) (l : Lexer)
    (h : (nextToken fuel l).2.1 = true) :
    (nextToken fuel l).1.type = .SEMICOLON := by
  rw [nextToken] at h ⊢
  split_ifs at h ⊢ <;> rfl

theorem nt_characterization (fuel : Nat) (l : Lexer) :
    (nextToken fuel l).2.1 = true ↔
      (((skipWhitespaceAndComments fuel l false).2 = true ∧
        SemicolonTrigger l.lastToken.type = true ∧
        ((skipWhitespaceAndComments fuel l false).1.ch = nulChar ∨
          nextTokenStartsStatement (skipWhitespaceAndComments fuel l false).1 = true)) ∨
       ((skipWhitespaceAndComments fuel l false).1.ch = nulChar ∧
        SemicolonTrigger l.lastToken.type = true)) := by
  by_cases hch : (skipWhitespaceAndComments fuel l false).1.ch = nulChar <;>
    rcases hsaw : (skipWhitespaceAndComments fuel l false).2 <;>
      rcases htrig : SemicolonTrigger l.lastToken.type <;>
        rcases hst : nextTokenStartsStatement (skipWhitespaceAndComments fuel l false).1 <;>
          simp [nextToken, skipWC_lastToken, hch, hsaw, htrig, hst]

theorem tokenize_chain (fuel : Nat) :
    ∀ l : Lexer,
      List.Chain' (fun a b => b.2 = true →
        SemicolonTrigger a.1.type = true ∧ a.2 = false) (tokenize fuel l) ∧
      (∀ p ∈ (tokenize fuel l).head?, p.2 = true →
        SemicolonTrigger l.lastToken.type = true) := by
  induction fuel with
  | zero =>
    intro l
    exact ⟨by simp [tokenize], by simp [tokenize]⟩
  | succ f ih =>
    intro l
    rw [tokenize]
    by_cases heof : (nextToken f l).1.type = .EOF
    · simp only [heof, if_true]
      refine ⟨by simp, ?_⟩
      intro p hp hsyn
      simp only [List.head?_cons, Option.mem_def, Option.some.injEq] at hp
      subst hp
      exact nt_syn_trigger f l hsyn
    · simp only [heof, if_false]
      obtain ⟨ihchain, ihhead⟩ := ih (nextToken f l).2.2
      refine ⟨?_, ?_⟩
      · rw [List.chain'_cons']
        refine ⟨?_, ihchain⟩
        intro b hb hbsyn
        have htrig : SemicolonTrigger ((nextToken f l).2.2).lastToken.type = true :=
          ihhead b hb hbsyn
        rw [nt_lastToken f l] at htrig
        refine ⟨htrig, ?_⟩
        by_contra hs
        have hs1 : (nextToken f l).2.1 = true := by
          revert hs
          cases (nextToken f l).2.1 <;> simp
        have := nt_syn_type f l hs1
        rw [this] at htrig
        simp [SemicolonTrigger] at htrig
      · intro p hp hsyn
        simp only [List.head?_cons, Option.mem_def, Option.some.injEq] at hp
        subst hp
        exact nt_syn_trigger f l hsyn

/-- C7 (corrected) counterexample: in the source a followed by a block
comment containing a newline and then the word let, a newline is crossed
between the two tokens, the previous token kind IDENT is a semicolon
trigger and the upcoming kind LET starts a statement, yet no synthetic
semicolon is emitted between them (the token after IDENT is LET). -/
theorem C7_counterexample_block_comment_newline :
    (tokenize 99 (newLexer ("a #\x7b \n \x7d# let x").toList)).map
        (fun p => (p.1.type, p.2))
      = [(.IDENT, false), (.LET, false), (.IDENT, false), (.SEMICOLON, true), (.EOF, false)] ∧
    '\n' ∈ ("a #\x7b \n \x7d# let x").toList ∧
    SemicolonTrigger .IDENT = true ∧
    StartsStatement .LET = true := by
  refine ⟨by decide, by decide, rfl, rfl⟩

/-- C8: block comments track nesting only up to depth 2. -/
theorem C8_block_comment_depth_cap :
    (∀ fuel d l, 2 ≤ d → l.ch = '#' → peekChar l = lbraceChar →
      skipBlockCommentLoop (fuel + 1) d l = skipBlockCommentLoop fuel d (readChar l)) ∧
    (∀ fuel d l, 0 < d → l.ch = rbraceChar → peekChar l = '#' →
      skipBlockCommentLoop (fuel + 1) d l
        = skipBlockCommentLoop fuel (d - 1) (readChar (readChar l))) ∧
    (∀ fuel l, skipBlockCommentLoop fuel 0 l = l) ∧
    (tokenize 99 (newLexer ("#\x7b #\x7b #\x7b \x7d# \x7d# x").toList)).map
        (fun p => (p.1.type, p.1.literal))
      = [(.IDENT, "x"), (.SEMICOLON, ";"), (.EOF, "")] := by
  refine ⟨?_, ?_, ?_, by decide⟩
  · intro fuel d l hd hch hpk
    have h0 : 0 < d := lt_of_lt_of_le Nat.zero_lt_two hd
    have hne : ¬ d < 2 := not_lt.mpr hd
    have hnul : ('#' : Char) ≠ nulChar := by decide
    rw [skipBlockCommentLoop]
    simp [hch, hpk, h0, hne, hnul]
  · intro fuel d l hd hch hpk
    have hnul : rbraceChar ≠ nulChar := by decide
    have hnh : rbraceChar ≠ '#' := by decide
    rw [skipBlockCommentLoop]
    simp [hch, hpk, hd, hnul, hnh]
  · intro fuel l
    cases fuel with
    | zero => rfl
    | succ f => rw [skipBlockCommentLoop]; simp

theorem C8_depth_cap_witness :
    skipBlockCommentLoop 9 2 (newLexer ("#\x7b").toList)
      = skipBlockCommentLoop 8 2 (readChar (newLexer ("#\x7b").toList)) :=
  C8_block_comment_depth_cap.1 8 2 _ (by decide) (by decide) (by decide)

/-- C7 (amended). -/
theorem C7_semicolon_insertion_amended :
    (∀ fuel l, (nextToken fuel l).2.1 = true ↔
      (((skipWhitespaceAndComments fuel l false).2 = true ∧
        SemicolonTrigger l.lastToken.type = true ∧
        ((skipWhitespaceAndComments fuel l false).1.ch = nulChar ∨
          nextTokenStartsStatement (skipWhitespaceAndComments fuel l false).1 = true)) ∨
       ((skipWhitespaceAndComments fuel l false).1.ch = nulChar ∧
        SemicolonTrigger l.lastToken.type = true))) ∧
    (∀ fuel l, (nextToken fuel l).2.1 = true → (nextToken fuel l).1.type = .SEMICOLON) ∧
    (∀ fuel s, List.Chain' (fun a b => b.2 = true →
        SemicolonTrigger a.1.type = true ∧ a.2 = false) (tokenize fuel (newLexer s)) ∧
      (∀ p ∈ (tokenize fuel (newLexer s)).head?, p.2 = false)) := by
  refine ⟨nt_characterization, nt_syn_type, ?_⟩
  intro fuel s
  obtain ⟨hchain, hhead⟩ := tokenize_chain fuel (newLexer s)
  refine ⟨hchain, ?_⟩
  intro p hp
  by_contra hns
  have hsyn : p.2 = true := by
    revert hns
    cases p.2 <;> simp
  have htr := hhead p hp hsyn
  have : (newLexer s).lastToken.type = .EOF := rfl
  rw [this] at htr
  simp [SemicolonTrigger] at htr

theorem C7_amended_witness :
    (nextToken 98 ((nextToken 99 (newLexer ("x\nlet y").toList)).2.2)).1.type = .SEMICOLON :=
  C7_semicolon_insertion_amended.2.1 98 _ (by decide)

/-- C5 (corrected) counterexample. -/
theorem C5_counterexample_chant_doom :
    ∃ stF, evalProgram 30 (initState false [])
        ⟨[.stmtItem (.exprS (.chantE (.doomE (.strLit "boom"))))]⟩
      = some (.error (.doomS "boom"), stF) := ⟨_, rfl⟩

/-- C5 (amended). -/
theorem C5_chant_amended (fuel : Nat) (st : EvalState) (e : Expr) :
    (∀ v st1, evalExpr fuel st e = some (.ok v, st1) →
      evalExpr (fuel + 1) st (.chantE e) = some (.ok (.vok .vnil), st1)) ∧
    (∀ sig st1, evalExpr fuel st e = some (.error sig, st1) →
      evalExpr (fuel + 1) st (.chantE e) = some (.error sig, st1)) := by
  constructor <;> intro a st1 h <;> simp [evalExpr, bindE, h]

theorem C5_chant_amended_witness :
    evalExpr 2 (initState false []) (.chantE (.intLit 1))
      = some (.ok (.vok .vnil), initState false []) :=
  (C5_chant_amended 1 (initState false []) (.intLit 1)).1 (.vint 1) _ rfl

/-- C3 (corrected) counterexample. -/
theorem C3_counterexample_identity :
    valuesEqual (.varr 0) (.varr 0) = false ∧
    (∃ stF, evalProgram 30 (initState false [])
        ⟨[.stmtItem (.letS "a" (.arrayLit [.intLit 1])),
          .stmtItem (.exprS (.binary "==" (.identE "a") (.identE "a")))]⟩
      = some (.ok (.vbool false), stF)) :=
  ⟨rfl, _, rfl⟩

/-- C3 (amended). -/
theorem C3_plain_equality_amended (fuel : Nat) (st : EvalState) (le re : Expr)
    (l r : Value) (st1 st2 : EvalState)
    (hl : evalExpr fuel st le = some (.ok l, st1))
    (hr : evalExpr fuel st1 re = some (.ok r, st2))
    (hamb : st2.decrees.ambitiousMode = false) :
    evalBinaryExpr (fuel + 1) st "==" le re = some (.ok (.vbool (valuesEqual l r)), st2) ∧
    (valuesEqual l r = true ↔
      ((∃ n, l = .vint n ∧ r = .vint n) ∨
       (∃ x, l = .vfloat x ∧ r = .vfloat x) ∨
       (∃ b, l = .vbool b ∧ r = .vbool b) ∨
       (∃ s, l = .vstr s ∧ r = .vstr s) ∨
       (l = .vnil ∧ r = .vnil))) ∧
    (5 ≤ kindCode l → valuesEqual l r = false) := by
  refine ⟨?_, ?_, ?_⟩
  · simp [evalBinaryExpr, bindE, hl, hr, hamb]
  · cases l <;> cases r <;> simp [valuesEqual, eq_comm]
  · intro hk
    cases l <;> cases r <;> simp_all [valuesEqual, kindCode]

theorem C3_amended_witness :
    evalBinaryExpr 2 (initState false []) "==" (.intLit 2) (.intLit 2)
      = some (.ok (.vbool (valuesEqual (.vint 2) (.vint 2))), initState false []) :=
  (C3_plain_equality_amended 1 (initState false []) (.intLit 2) (.intLit 2)
    (.vint 2) (.vint 2) (initState false []) (initState false []) rfl rfl rfl).1

theorem leadsWith_refl (cs : List Char) : leadsWith cs cs = true := by
  induction cs with
  | nil => rfl
  | cons c rest ih => simp [leadsWith, ih]

theorem strContainsL_append (xs ys : List Char) : strContainsL ys (xs ++ ys) = true := by
  induction xs with
  | nil =>
    cases ys with
    | nil => rfl
    | cons c rest => simp [strContainsL, leadsWith_refl]
  | cons x rest ih => simp [strContainsL, ih]

theorem strContains_append (a b : String) : strContains (a ++ b) b = true := by
  have : (a ++ b).toList = a.toList ++ b.toList := by
    simp [String.toList, String.data_append]
  rw [strContains, this]
  exact strContainsL_append _ _

/-- C1: the propagate operator yields the inner value of an ok-wrap, raises
the propagate signal with the inner value of an err-wrap, raises propagate
with the string nil on nil, and yields any other value unchanged; a
propagate signal reaching the top-level item loop becomes a doom whose
message contains the stringification of the carried value; in particular
propagating err of the string oops at top level dooms with a message
containing oops. -/
theorem C1_propagate_semantics :
    (∀ fuel st e v st1, evalExpr fuel st e = some (.ok v, st1) →
      evalExpr (fuel + 1) st (.propagateE e)
        = some (match v with
                | .vok i => (.ok i, st1)
                | .verr i => (.error (.prop i), st1)
                | .vnil => (.error (.prop (.vstr "nil")), st1)
                | _ => (.ok v, st1))) ∧
    (∀ fuel st item rest acc v st1,
      evalItem fuel st item = some (.error (.prop v), st1) →
      evalItemsLoop fuel st (item :: rest) acc
        = some (.error (.doomS ("unhandled error propagation: " ++ stringifyV st1 v)), st1) ∧
      strContains ("unhandled error propagation: " ++ stringifyV st1 v)
        (stringifyV st1 v) = true) ∧
    ((∃ stF, evalProgram 30 (initState false [])
        ⟨[.stmtItem (.exprS (.propagateE (.errE (.strLit "oops"))))]⟩
      = some (.error (.doomS "unhandled error propagation: oops"), stF)) ∧
     strContains "unhandled error propagation: oops" "oops" = true) := by
  refine ⟨?_, ?_, ⟨_, rfl⟩, by decide⟩
  · intro fuel st e v st1 h
    cases v <;> simp [evalExpr, bindE, h]
  · intro fuel st item rest acc v st1 h
    exact ⟨by simp [evalItemsLoop, h], strContains_append _ _⟩

theorem C1_propagate_witness :
    evalExpr 2 (initState false []) (.propagateE (.intLit 3))
      = some (.ok (.vint 3), initState false []) :=
  C1_propagate_semantics.1 1 (initState false []) (.intLit 3) (.vint 3)
    (initState false []) rfl

/-- C6: a const binding with forgiven false rejects every assignment with a
doom and is left unchanged; a successful sorry in the scope holding the
binding yields ok(nil), flips the forgiven flag and permits subsequent
assignments; sorry never walks to a parent scope (an absent name yields an
err even when an ancestor binds it); under no_forgiveness sorry yields
err(no) and flips nothing. -/
theorem C6_const_sorry_forgive :
    (∀ envs id name (v : Value) sc b, envs[id]? = some sc →
      assocGet sc.bindings name = some b → b.isConst = true → b.forgiven = false →
      envSet envs id name v = .error ("cannot reassign const: " ++ name)) ∧
    (∀ fuel st name ve v st1 msg,
      evalExpr fuel st ve = some (.ok v, st1) →
      envSet st1.envs st1.curEnv name v = .error msg →
      evalExpr (fuel + 1) st (.assign name ve) = some (.error (.doomS msg), st1)) ∧
    (∀ fuel st name sc b, st.decrees.noForgiveness = false →
      st.envs[st.curEnv]? = some sc → assocGet sc.bindings name = some b →
      evalExpr (fuel + 1) st (.apologyE name)
        = some (.ok (.vok .vnil), { st with envs := forgiveAt st.envs st.curEnv name sc b }) ∧
      (∀ v2 : Value,
        envSet (forgiveAt st.envs st.curEnv name sc b) st.curEnv name v2
          = .ok (setValueAt (forgiveAt st.envs st.curEnv name sc b) st.curEnv name
              (forgivenScope sc name b) { b with forgiven := true } v2))) ∧
    (∀ fuel st name sc, st.decrees.noForgiveness = false →
      st.envs[st.curEnv]? = some sc → assocGet sc.bindings name = none →
      evalExpr (fuel + 1) st (.apologyE name)
        = some (.ok (.verr (.vstr ("sorry: " ++ name ++ " not found in current scope"))), st)) ∧
    (∀ fuel st name, st.decrees.noForgiveness = true →
      evalExpr (fuel + 1) st (.apologyE name) = some (.ok (.verr (.vstr "no")), st)) := by
  refine ⟨?_, ?_, ?_, ?_, ?_⟩
  · intro envs id name v sc b hsc hget hconst hforg
    have hlen : envs.length + 1 = envs.length + 1 := rfl
    rw [envSet]
    rw [envSetAux]
    simp [hsc, hget, hconst, hforg]
  · intro fuel st name ve v st1 msg hev hset
    simp [evalExpr, bindE, hev, hset]
  · intro fuel st name sc b hnf hsc hget
    constructor
    · simp [evalExpr, hnf, envForgive, hsc, hget, forgiveAt, forgivenScope]
    · intro v2
      have hid : st.curEnv < st.envs.length := by
        by_contra hge
        rw [List.getElem?_eq_none (le_of_not_lt hge)] at hsc
        exact Option.noConfusion hsc
      have hsc2 : (forgiveAt st.envs st.curEnv name sc b)[st.curEnv]?
          = some (forgivenScope sc name b) := by
        rw [forgiveAt, List.getElem?_set_self]
        simp [hid]
      rw [envSet]
      have hlen : (forgiveAt st.envs st.curEnv name sc b).length = st.envs.length := by
        simp [forgiveAt]
      rw [hlen, envSetAux, hsc2]
      simp only [forgivenScope, assocGet_assocSet, if_pos rfl]
      simp [setValueAt, forgivenScope]
  · intro fuel st name sc hnf hsc hget
    simp [evalExpr, hnf, envForgive, hsc, hget]
  · intro fuel st name hnf
    simp [evalExpr, hnf]

theorem C6_witness :
    evalExpr 1
      { initState false [] with decrees := NewDecreeConfig.apply "no_forgiveness" }
      (.apologyE "x")
      = some (.ok (.verr (.vstr "no")),
          { initState false [] with decrees := NewDecreeConfig.apply "no_forgiveness" }) :=
  C6_const_sorry_forgive.2.2.2.2 0
    { initState false [] with decrees := NewDecreeConfig.apply "no_forgiveness" } "x" rfl

/-- C2 (corrected) counterexample: a user function with parameter list
(a, a) called with the two arguments 1 and 2 introduces a single binding
into the fresh call scope (the name a, holding the second argument), not
two bindings. -/
theorem C2_counterexample_duplicate_params :
    ∃ st2, callFunction 30 (initState false [])
        { name := "f", params := ["a", "a"], body := some (.mk [] none), envId := 0 }
        [.vint 1, .vint 2]
      = some (.ok .vnil, st2) ∧
      (st2.envs[1]?).map (fun sc => sc.bindings) = some [("a", mkBind (.vint 2))] :=
  ⟨_, rfl, rfl⟩

/-- C2 (amended): for a call of a user function whose parameter names are
distinct, the fresh call scope is a child of the captured environment and
receives exactly one binding per parameter: parameter i holds argument i
while arguments last, nil afterwards, and excess arguments are ignored
(the padArgs sequence); with a repeated parameter name the later occurrence
overwrites the earlier, as the counterexample shows.  Unconditionally, the
call boundary absorbs return and guard-return into the result value, turns
propagate into an err-wrap, re-raises doom, and restores the caller
environment. -/
theorem C2_call_function_amended (fuel : Nat) (st : EvalState) (fn : FnValue)
    (args : List Value) (b : Block) (hbody : fn.body = some b) :
    (fn.params.Nodup →
      (bindParams (allocScope st.envs (some fn.envId)).1 fn.params args
          (allocScope st.envs (some fn.envId)).2)[(allocScope st.envs (some fn.envId)).1]?
        = some { bindings := paramBindings fn.params args, parent := some fn.envId } ∧
      (paramBindings fn.params args).length = fn.params.length) ∧
    (∀ r st2, evalBlockExpr fuel (callEntryState st fn args) b = some (r, st2) →
      callFunction (fuel + 1) st fn args
        = some (match r with
                | .ok v => (.ok v, { st2 with curEnv := st.curEnv })
                | .error (.ret v) => (.ok v, { st2 with curEnv := st.curEnv })
                | .error (.guardRet v) => (.ok v, { st2 with curEnv := st.curEnv })
                | .error (.prop v) => (.ok (.verr v), { st2 with curEnv := st.curEnv })
                | .error (.doomS m) => (.error (.doomS m), { st2 with curEnv := st.curEnv }))) := by
  constructor
  · intro hnd
    constructor
    · have hsc : ((allocScope st.envs (some fn.envId)).2)[(allocScope st.envs (some fn.envId)).1]?
          = some { bindings := [], parent := some fn.envId } := by
        simp [allocScope, List.getElem?_concat_length]
      have := bindParams_at fn.params args (allocScope st.envs (some fn.envId)).2
        (allocScope st.envs (some fn.envId)).1 _ hsc hnd (by intro p _; rfl)
      simpa using this
    · simp [paramBindings, padArgs_length]
  · intro r st2 h
    rw [callFunction, hbody]
    rw [show callEntryState st fn args = callEntryState st fn args from rfl] at h
    simp only [callEntryState, allocScope] at h
    simp only [allocScope]
    rw [h]
    rcases r with sig | v
    · cases sig <;> rfl
    · rfl

theorem C2_amended_witness :
    callFunction 11 (initState false [])
        { name := "f", params := ["a"], body := some (.mk [] none), envId := 0 } []
      = some (.ok .vnil,
          { (initState false []) with
            envs := [{ bindings := [], parent := none },
              { bindings := [("a", mkBind .vnil)], parent := some 0 },
              { bindings := [], parent := some 1 }],
            curEnv := 0 }) :=
  (C2_call_function_amended 10 (initState false [])
    { name := "f", params := ["a"], body := some (.mk [] none), envId := 0 } []
    (.mk [] none) rfl).2 (.ok .vnil) _ rfl

/-- C4: with ambitious_mode active and a truthy right-hand side, the double
equals operator is reinterpreted as assignment by the syntactic shape of the
left side: a scope-walking set for an identifier, an array write at the
index adjusted by the current indexing base or a map write at the
stringified key for an index expression, a field write for a dot
expression; the whole expression yields the right-hand value.  With a falsy
right-hand side the operator falls through to normal equality. -/
theorem C4_ambitious_mode_assignment :
    (∀ fuel st (name : String) re l r st1 st2 envs2,
      evalExpr fuel st (.identE name) = some (.ok l, st1) →
      evalExpr fuel st1 re = some (.ok r, st2) →
      st2.decrees.ambitiousMode = true → r.IsTruthy = true →
      envSet st2.envs st2.curEnv name r = .ok envs2 →
      evalBinaryExpr (fuel + 1) st "==" (.identE name) re
        = some (.ok r, { st2 with envs := envs2 })) ∧
    (∀ fuel st cle cie re l r st1 st2 ref n st3 st4 arr,
      evalExpr fuel st (.indexE cle cie) = some (.ok l, st1) →
      evalExpr fuel st1 re = some (.ok r, st2) →
      st2.decrees.ambitiousMode = true → r.IsTruthy = true →
      evalExpr fuel st2 cle = some (.ok (.varr ref), st3) →
      evalExpr fuel st3 cie = some (.ok (.vint n), st4) →
      st4.arrays[ref]? = some arr →
      0 ≤ adjustIndex st4 n → adjustIndex st4 n < (arr.length : Int) →
      evalBinaryExpr (fuel + 1) st "==" (.indexE cle cie) re
        = some (.ok r,
            { st4 with arrays := st4.arrays.set ref (arr.set (adjustIndex st4 n).toNat r) })) ∧
    (∀ fuel st cle cie re l r st1 st2 ref iv st3 st4 m,
      evalExpr fuel st (.indexE cle cie) = some (.ok l, st1) →
      evalExpr fuel st1 re = some (.ok r, st2) →
      st2.decrees.ambitiousMode = true → r.IsTruthy = true →
      evalExpr fuel st2 cle = some (.ok (.vmap ref), st3) →
      evalExpr fuel st3 cie = some (.ok iv, st4) →
      st4.maps[ref]? = some m →
      evalBinaryExpr (fuel + 1) st "==" (.indexE cle cie) re
        = some (.ok r,
            { st4 with maps := st4.maps.set ref (m.Set (stringifyV st4 iv) r) })) ∧
    (∀ fuel st cle (field : String) re l r st1 st2 ref st3 m,
      evalExpr fuel st (.dotE cle field) = some (.ok l, st1) →
      evalExpr fuel st1 re = some (.ok r, st2) →
      st2.decrees.ambitiousMode = true → r.IsTruthy = true →
      evalExpr fuel st2 cle = some (.ok (.vmap ref), st3) →
      st3.maps[ref]? = some m →
      evalBinaryExpr (fuel + 1) st "==" (.dotE cle field) re
        = some (.ok r, { st3 with maps := st3.maps.set ref (m.Set field r) })) ∧
    (∀ fuel st le re l r st1 st2,
      evalExpr fuel st le = some (.ok l, st1) →
      evalExpr fuel st1 re = some (.ok r, st2) →
      r.IsTruthy = false →
      evalBinaryExpr (fuel + 1) st "==" le re
        = some (.ok (.vbool (valuesEqual l r)), st2)) := by
  refine ⟨?_, ?_, ?_, ?_, ?_⟩
  · intro fuel st name re l r st1 st2 envs2 hl hr hamb htr hset
    simp [evalBinaryExpr, bindE, hl, hr, hamb, htr, hset]
  · intro fuel st cle cie re l r st1 st2 ref n st3 st4 arr hl hr hamb htr hc hi harr h0 hlt
    simp [evalBinaryExpr, bindE, hl, hr, hamb, htr, hc, hi, harr, h0, hlt]
  · intro fuel st cle cie re l r st1 st2 ref iv st3 st4 m hl hr hamb htr hc hi hm
    simp [evalBinaryExpr, bindE, hl, hr, hamb, htr, hc, hi, hm]
  · intro fuel st cle field re l r st1 st2 ref st3 m hl hr hamb htr hc hm
    simp [evalBinaryExpr, bindE, hl, hr, hamb, htr, hc, hm]
  · intro fuel st le re l r st1 st2 hl hr htr
    simp [evalBinaryExpr, bindE, hl, hr, htr]



theorem C4_ambitious_witness :
    evalBinaryExpr 2
      { initState false [] with
        decrees := NewDecreeConfig.apply "ambitious_mode",
        envs := [{ bindings := [("x", mkBind (.vint 5))], parent := none }] }
      "==" (.identE "x") (.intLit 10)
      = some (.ok (.vint 10),
          { initState false [] with
            decrees := NewDecreeConfig.apply "ambitious_mode",
            envs := [{ bindings := [("x", mkBind (.vint 10))], parent := none }] }) :=
  C4_ambitious_mode_assignment.1 1
    { initState false [] with
      decrees := NewDecreeConfig.apply "ambitious_mode",
      envs := [{ bindings := [("x", mkBind (.vint 5))], parent := none }] }
    "x" (.intLit 10) (.vint 5) (.vint 10) _ _ _ rfl rfl rfl rfl rfl

/-- C10: the child scope pushed for a block body, a user function call or a
matched arm is never left installed: on every exit path, with a value or
with any signal, the current-environment reference afterwards equals the
one in effect immediately before that evaluation (for an arm, the one
saved when the arm matched). -/
theorem C10_environment_restored :
    (∀ fuel st b r st2, evalBlockExpr fuel st b = some (r, st2) →
      st2.curEnv = st.curEnv) ∧
    (∀ fuel st fn args r st2, callFunction fuel st fn args = some (r, st2) →
      st2.curEnv = st.curEnv) ∧
    (∀ fuel st pat body rest subj bindings st1 r st3,
      matchPattern fuel st pat subj = some ((true, bindings), st1) →
      evalExpr fuel (armEntryState st1 bindings) body = some (r, st3) →
      evalMatchArms (fuel + 1) st ((pat, body) :: rest) subj
        = some (r, { st3 with curEnv := st1.curEnv })) := by
  refine ⟨?_, ?_, ?_⟩
  · intro fuel st b r st2 h
    cases fuel with
    | zero => exact absurd h (by simp [evalBlockExpr])
    | succ f =>
      rw [evalBlockExpr] at h
      split at h
      · exact Option.noConfusion h
      · injection h with h1
        injection h1 with hr hst
        subst hst
        rfl
      · split at h
        · split at h
          · exact Option.noConfusion h
          · injection h with h1
            injection h1 with hr hst
            subst hst
            rfl
          · injection h with h1
            injection h1 with hr hst
            subst hst
            rfl
        · injection h with h1
          injection h1 with hr hst
          subst hst
          rfl
  · intro fuel st fn args r st2 h
    cases fuel with
    | zero => exact absurd h (by simp [callFunction])
    | succ f =>
      rw [callFunction] at h
      split at h
      · injection h with h1
        injection h1 with hr hst
        subst hst
        rfl
      · simp only [] at h
        split at h
        · exact Option.noConfusion h
        · split at h <;>
            (injection h with h1
             injection h1 with hr hst
             subst hst
             rfl)
  · intro fuel st pat body rest subj bindings st1 r st3 hmp hbody
    rw [evalMatchArms, hmp]
    simp only [armEntryState] at hbody
    simp only []
    rw [hbody]



theorem C10_environment_witness :
    ({ initState false [] with
        envs := [{ bindings := [], parent := none }, { bindings := [], parent := some 0 }],
        curEnv := 0 } : EvalState).curEnv
      = (initState false []).curEnv :=
  C10_environment_restored.1 5 (initState false []) (.mk [] none) (.ok .vnil)
    { initState false [] with
      envs := [{ bindings := [], parent := none }, { bindings := [], parent := some 0 }],
      curEnv := 0 } rfl

end Morgoth
